import Mathlib

/-!
Directory listing of `obito.go` (`filesHandler`)

A shallow embedding of the listing handler of the file server and of the
Go standard-library functions it calls (Unix build), followed by the
properties of the listing.

Conventions of the embedding.

* A Go `string` is a Lean `String`, that is, valid UTF-8; the byte loops of
  the library run over its characters (`String.data`).  The bytes `/` and `.`
  never occur inside a multi-byte UTF-8 sequence, so scanning characters and
  scanning bytes agree.
* `strings.ToLower` and `strings.ToUpper` map ASCII letters as the library
  does; for the runes above `unicode.MaxASCII` they consult the tables
  `unicode.CaseRanges`, which are a parameter `CaseTables` of the model.
* The file system is an oracle `FileSystem`: the answer of every system
  call is a function of the path it is given.
* `id` is a Go `int`; it counts directory entries of one directory, which
  are far fewer than `2^63`, so it is a `Nat` here.
* The handler returns the response it writes together with the sequence of
  file-system calls it made.  Response headers, the deferred
  `fileHandle.Close()` calls and failures of writing to the connection are
  not part of the model.
-/

namespace FileServer

/-! ## Go library: `path/filepath` -/

/-- Unix `os.IsPathSeparator`: the byte `/`. -/
def isPathSeparator (c : Char) : Bool := c == '/'

/-- Inner loop of the `..` case of `filepath.Clean`,
`for out.w > dotdot && !os.IsPathSeparator(out.index(out.w)) { out.w-- }`:
from the current `w` to the final `w`. -/
def backtrack (buf : List Char) (dotdot : Nat) : Nat → Nat
  | 0 => 0
  | w + 1 =>
    if w + 1 > dotdot && !isPathSeparator (buf.getD (w + 1) '/') then
      backtrack buf dotdot w
    else w + 1

/-- Main loop `for r < n { switch ... }` of `filepath.Clean`.  `path` is the
unread input `path[r:]`, `out` the bytes written so far (`out.w` is its
length), `dotdot` the index where `..` must stop.  Every iteration reads at
least one byte, so `fuel = n` iterations are enough. -/
def cleanLoop (rooted : Bool) : Nat → List Char → List Char → Nat → List Char
  | 0, _, out, _ => out
  | fuel + 1, path, out, dotdot =>
    match path with
    | [] => out
    | c :: rest =>
      if isPathSeparator c then
        -- empty path element
        cleanLoop rooted fuel rest out dotdot
      else if c = '.' ∧ (rest = [] ∨ isPathSeparator (rest.headD '/')) then
        -- . element
        cleanLoop rooted fuel rest out dotdot
      else if c = '.' ∧ rest.head? = some '.' ∧
          (rest.tail = [] ∨ isPathSeparator (rest.tail.headD '/')) then
        -- .. element: remove to last separator
        if out.length > dotdot then
          -- can backtrack
          cleanLoop rooted fuel rest.tail
            (out.take (backtrack out dotdot (out.length - 1))) dotdot
        else if !rooted then
          -- cannot backtrack, but not rooted, so append .. element
          let out1 := if out.length > 0 then out ++ ['/'] else out
          let out2 := out1 ++ ['.', '.']
          cleanLoop rooted fuel rest.tail out2 out2.length
        else
          cleanLoop rooted fuel rest.tail out dotdot
      else
        -- real path element: add slash if needed, copy element
        let out1 :=
          if (rooted && out.length != 1) || (!rooted && out.length != 0) then out ++ ['/']
          else out
        cleanLoop rooted fuel (path.dropWhile (fun b => !isPathSeparator b))
          (out1 ++ path.takeWhile (fun b => !isPathSeparator b)) dotdot

/-- Unix `filepath.Clean` on the characters of a path (no volume name). -/
def cleanChars (path : List Char) : List Char :=
  if path = [] then ['.']
  else
    let rooted := isPathSeparator (path.headD '.')
    let out :=
      if rooted then cleanLoop rooted path.length (path.drop 1) ['/'] 1
      else cleanLoop rooted path.length path [] 0
    -- Turn empty string into "."
    if out.length = 0 then ['.'] else out

/-- Unix `filepath.Clean`. -/
def Clean (path : String) : String := ⟨cleanChars path.data⟩

/-- Go `strings.Join(elems, sep)`. -/
def stringsJoin (elems : List String) (sep : String) : String :=
  ⟨List.intercalate sep.data (elems.map String.data)⟩

/-- Unix `filepath.Join`: the elements from the first non-empty one on,
joined with `/` and cleaned; the empty string when all are empty. -/
def Join (elem : List String) : String :=
  match elem.dropWhile (fun e => e == "") with
  | [] => ""
  | rest => Clean (stringsJoin rest "/")

/-- Loop of `filepath.Ext`,
`for i := len(path) - 1; i >= 0 && !os.IsPathSeparator(path[i]); i--`;
the argument is `i + 1`. -/
def extLoop (path : List Char) : Nat → List Char
  | 0 => []
  | i + 1 =>
    if isPathSeparator (path.getD i '/') then []
    else if path.getD i '/' = '.' then path.drop i
    else extLoop path i

/-- Go `filepath.Ext`: the suffix beginning at the final dot in the final
element of the path; empty if there is no dot. -/
def Ext (path : String) : String := ⟨extLoop path.data path.data.length⟩

/-! ## Go library: `os` -/

/-- First loop of `os.basename`, `for ; i > 0 && name[i] == '/'; i--
{ name = name[:i] }`: from `name` and `i` to the trimmed name and final `i`. -/
def trimSlashes : List Char → Nat → List Char × Nat
  | name, 0 => (name, 0)
  | name, i + 1 =>
    if name.getD (i + 1) '.' = '/' then trimSlashes (name.take (i + 1)) i
    else (name, i + 1)

/-- Second loop of `os.basename`, `for i--; i >= 0; i-- { if name[i] == '/'
{ name = name[i+1:]; break } }`; the argument is `i + 1` after the `i--`. -/
def dropDirectory (name : List Char) : Nat → List Char
  | 0 => name
  | i + 1 =>
    if name.getD i '.' = '/' then name.drop (i + 1)
    else dropDirectory name i

/-- Unix `os.basename`: removes trailing slashes and the leading directory
name; this is the `Name()` of the `FileInfo` that `os.Stat` returns. -/
def basename (name : String) : String :=
  if name.data = [] then name
  else
    let t := trimSlashes name.data (name.data.length - 1)
    ⟨dropDirectory t.1 t.2⟩

/-! ## Go library: `strings` and `unicode` -/

/-- Go `unicode.MaxASCII`. -/
def MaxASCII : Nat := 0x7F

/-- The case mappings `unicode.To(unicode.LowerCase, r)` and
`unicode.To(unicode.UpperCase, r)` of the runes above `MaxASCII`.  They are
read off `unicode.CaseRanges`, a table of the Go distribution: the listing
is verified for every such pair of mappings. -/
structure CaseTables where
  lower : Char → Char
  upper : Char → Char

/-- Go `unicode.ToLower`. -/
def unicodeToLower (U : CaseTables) (r : Char) : Char :=
  if r.toNat ≤ MaxASCII then
    if 'A' ≤ r ∧ r ≤ 'Z' then Char.ofNat (r.toNat + ('a'.toNat - 'A'.toNat)) else r
  else U.lower r

/-- Go `unicode.ToUpper`. -/
def unicodeToUpper (U : CaseTables) (r : Char) : Char :=
  if r.toNat ≤ MaxASCII then
    if 'a' ≤ r ∧ r ≤ 'z' then Char.ofNat (r.toNat - ('a'.toNat - 'A'.toNat)) else r
  else U.upper r

/-- Go `strings.ToLower`: every rune mapped by `unicode.ToLower` (the
ASCII-only fast path computes the same string). -/
def ToLower (U : CaseTables) (s : String) : String := ⟨s.data.map (unicodeToLower U)⟩

/-- Go `strings.ToUpper`: every rune mapped by `unicode.ToUpper`. -/
def ToUpper (U : CaseTables) (s : String) : String := ⟨s.data.map (unicodeToUpper U)⟩

/-! ## The file system seen by the handler -/

/-- Error of `os.Stat`.  `notExist` is `ENOENT`, the one error of a stat for
which `os.IsNotExist(err)` holds.  `notDir` is `ENOTDIR`: a component of the
path above its last element is not a directory, so the path does not exist
either, but `os.IsNotExist(err)` is false.  `other` is any further error, such
as `EACCES`. -/
inductive StatError where
  | notExist
  | notDir
  | other
  deriving DecidableEq

/-- What the system reports for a path: `Size()`, `IsDir()` and the
modification time as `ModTime().Format(time.RFC3339)` renders it. -/
structure SysStat where
  size : Int
  isDir : Bool
  modTime : String
  deriving DecidableEq

deriving instance DecidableEq for Except

/-- The `os.FileInfo` value `os.Stat` returns. -/
structure FileStat where
  name : String
  size : Int
  isDir : Bool
  modTime : String
  deriving DecidableEq

/-- The `err` of `fileHandle.Read`. -/
inductive ReadError where
  | none
  | EOF
  | other
  deriving DecidableEq

/-- The result `n, err` of `fileHandle.Read(buffer)`. -/
structure ReadResult where
  n : Nat
  err : ReadError
  deriving DecidableEq

/-- The file system: the answer to each call, by path.  `readDir` gives the
`Name()` of every entry in enumeration order, or `none` on error;
`openFile` tells whether `os.Open` succeeds.  `os.ReadDir` returns the entries
sorted by filename (`sortedByName`); the handler does not depend on it, and
the properties below are proved for every order. -/
structure FileSystem where
  stat : String → Except StatError SysStat
  readDir : String → Option (List String)
  openFile : String → Bool
  read : String → ReadResult

/-- Go `os.Stat`: the system's answer, named by `basename` of the path. -/
def osStat (fs : FileSystem) (path : String) : Except StatError FileStat :=
  match fs.stat path with
  | .error e => .error e
  | .ok s => .ok { name := basename path, size := s.size, isDir := s.isDir, modTime := s.modTime }

/-- A file-system call made by the handler. -/
inductive Call where
  | stat (path : String)
  | readDir (path : String)
  | openFile (path : String)
  | read (path : String)
  deriving DecidableEq

/-! ## `obito.go` -/

/-- The struct `FileInfo` of `obito.go`, one record of the listing. -/
structure FileInfo where
  ID : Nat
  FileName : String
  Size : Int
  IsDir : Bool
  MimeType : String
  CreatedAt : String
  UpdatedAt : String
  deriving DecidableEq

/-- A Go slice `[]FileInfo`: `none` is the nil slice. -/
abbrev FileList := Option (List FileInfo)

/-- Go `append(fileList, x)`. -/
def FileList.append : FileList → FileInfo → FileList
  | none, x => some [x]
  | some l, x => some (l ++ [x])

/-- The elements of a slice, in order. -/
def FileList.records : FileList → List FileInfo
  | none => []
  | some l => l

/-- The `switch extension` of `filesHandler` (lines 84-151). -/
def mimeSwitch (U : CaseTables) (extension : String) : String :=
  match extension with
  | ".jpg" | ".jpeg" => "image/jpeg"
  | ".png" => "image/png"
  | ".gif" => "image/gif"
  | ".mp4" => "video/mp4"
  | ".mp3" => "audio/mpeg"
  | ".txt" => "text/plain"
  | ".pdf" => "application/pdf"
  | ".zip" => "application/zip"
  | ".tar" => "application/x-tar"
  | ".html" | ".htm" => "text/html"
  | ".css" => "text/css"
  | ".js" => "application/javascript"
  | ".json" => "application/json"
  | ".xml" => "application/xml"
  | ".csv" => "text/csv"
  | ".doc" | ".docx" => "application/msword"
  | ".xls" | ".xlsx" => "application/vnd.ms-excel"
  | ".ppt" | ".pptx" => "application/vnd.ms-powerpoint"
  | ".avi" => "video/x-msvideo"
  | ".mov" => "video/quicktime"
  | ".mkv" => "video/x-matroska"
  | ".flv" => "video/x-flv"
  | ".webm" => "video/webm"
  | ".wav" => "audio/wav"
  | ".ogg" => "audio/ogg"
  | ".bmp" => "image/bmp"
  | ".svg" => "image/svg+xml"
  | ".ico" => "image/x-icon"
  | ".exe" => "application/x-msdownload"
  | ".dll" => "application/x-msdownload"
  | ".sh" => "application/x-sh"
  | _ => ToUpper U extension

/-- The state of the loop `for _, file := range files`: the variables
`fileList` and `id`, and the file-system calls made so far. -/
structure LoopState where
  fileList : FileList
  id : Nat
  calls : List Call

/-- One iteration of `for _, file := range files` (lines 54-165); `file` is
`file.Name()`.  A `continue` leaves `fileList` as it is. -/
def loopBody (U : CaseTables) (fs : FileSystem) (dirPath : String)
    (st : LoopState) (file : String) : LoopState :=
  let id := st.id + 1
  let filePath := Join [dirPath, file]
  match osStat fs filePath with
  | .error _ =>
    -- continue
    { fileList := st.fileList, id := id, calls := st.calls ++ [.stat filePath] }
  | .ok fileInfo =>
    let record (mimeType : String) : FileInfo :=
      { ID := id
        FileName := fileInfo.name
        Size := fileInfo.size
        IsDir := fileInfo.isDir
        MimeType := mimeType
        CreatedAt := fileInfo.modTime
        UpdatedAt := fileInfo.modTime }
    if !fileInfo.isDir then
      if !fs.openFile filePath then
        -- continue
        { fileList := st.fileList, id := id,
          calls := st.calls ++ [.stat filePath, .openFile filePath] }
      else
        let r := fs.read filePath
        if r.err ≠ .none ∧ r.err ≠ .EOF then
          -- continue
          { fileList := st.fileList, id := id,
            calls := st.calls ++ [.stat filePath, .openFile filePath, .read filePath] }
        else
          let mimeType :=
            if r.n > 0 ∨ r.n = 0 then mimeSwitch U (ToLower U (Ext filePath))
            else ""
          { fileList := st.fileList.append (record mimeType), id := id,
            calls := st.calls ++ [.stat filePath, .openFile filePath, .read filePath] }
    else
      { fileList := st.fileList.append (record "directory"), id := id,
        calls := st.calls ++ [.stat filePath] }

/-- The JSON value `json.NewEncoder(w).Encode(fileList)` writes: a nil slice
encodes as `null`, any other slice as the array of its elements. -/
inductive JsonValue where
  | null
  | array (items : List FileInfo)
  deriving DecidableEq

/-- How `encoding/json` encodes a `[]FileInfo`. -/
def jsonEncode : FileList → JsonValue
  | none => .null
  | some l => .array l

/-- The response of the handler: `http.Error(w, error, code)`, or the value
written by `json.NewEncoder(w).Encode` with the implicit status 200.
`http.Error` writes `error` followed by a newline, as `text/plain`; the model
keeps the argument. -/
inductive Response where
  | httpError (error : String) (code : Nat)
  | encoded (body : JsonValue)
  deriving DecidableEq

/-- Go `http.StatusNotFound`. -/
def StatusNotFound : Nat := 404

/-- Go `http.StatusInternalServerError`. -/
def StatusInternalServerError : Nat := 500

/-- Go `http.StatusOK`, the status of a response written without
`WriteHeader`. -/
def StatusOK : Nat := 200

/-- The status code of a response. -/
def Response.status : Response → Nat
  | .httpError _ code => code
  | .encoded _ => StatusOK

/-- The records a response lists: those of the encoded array, none for
`null` and for an error. -/
def Response.records : Response → List FileInfo
  | .encoded (.array items) => items
  | _ => []

/-- The target directory of a request (lines 32-35): `rootDir`, or
`filepath.Join(rootDir, dirQuery)` for a non-empty `dir` query. -/
def targetDir (rootDir dirQuery : String) : String :=
  if dirQuery ≠ "" then Join [rootDir, dirQuery] else rootDir

/-- The handler `filesHandler(rootDir)` on a request whose `dir` query
parameter is `dirQuery` (empty when absent): the response and the
file-system calls, in order. -/
def filesHandler (U : CaseTables) (fs : FileSystem) (rootDir dirQuery : String) :
    Response × List Call :=
  let dirPath := targetDir rootDir dirQuery
  -- Verificar si el directorio existe
  match fs.stat dirPath with
  | .error .notExist =>
    (.httpError "\x7b\"error\": \"Directory not found\"\x7d" StatusNotFound, [.stat dirPath])
  | _ =>
    -- Obtener lista de archivos
    match fs.readDir dirPath with
    | none =>
      (.httpError "\x7b\"error\": \"Error reading directory\"\x7d" StatusInternalServerError,
        [.stat dirPath, .readDir dirPath])
    | some files =>
      let st := files.foldl (loopBody U fs dirPath)
        { fileList := none, id := 0, calls := [.stat dirPath, .readDir dirPath] }
      -- Codificar respuesta JSON
      (.encoded (jsonEncode st.fileList), st.calls)

/-! ## Notions used to state and prove the properties -/

/-- The record appended by the iteration that starts with `id = pos` on the
entry `file`; `none` when the iteration ends in `continue`. -/
def entryRecord (U : CaseTables) (fs : FileSystem) (dirPath : String) (pos : Nat)
    (file : String) : Option FileInfo :=
  (loopBody U fs dirPath { fileList := none, id := pos, calls := [] } file).fileList.records.head?

/-- The path `filePath` has a successful `os.Stat`. -/
def statSucceeds (fs : FileSystem) (filePath : String) : Bool :=
  match fs.stat filePath with
  | .error _ => false
  | .ok _ => true

/-- The path `filePath` has a successful `os.Stat` and, unless it is a
directory, a successful `os.Open` and a `Read` with no error but `io.EOF`. -/
def listable (fs : FileSystem) (filePath : String) : Bool :=
  match fs.stat filePath with
  | .error _ => false
  | .ok s => s.isDir || (fs.openFile filePath && (fs.read filePath).err != .other)

/-- The path does not exist, as `os.Stat` reports it: `ENOENT` or `ENOTDIR`. -/
def pathMissing (fs : FileSystem) (path : String) : Bool :=
  match fs.stat path with
  | .error .notExist => true
  | .error .notDir => true
  | _ => false

/-- Byte order of two names; on valid UTF-8 the order of the bytes is the
order of the code points. -/
def nameLT : List Char → List Char → Bool
  | [], [] => false
  | [], _ :: _ => true
  | _ :: _, [] => false
  | a :: as, b :: bs => decide (a.toNat < b.toNat) || (a.toNat == b.toNat && nameLT as bs)

/-- The names are in the order of `os.ReadDir`: sorted by filename, each
before the next. -/
def sortedByName : List String → Bool
  | [] => true
  | [_] => true
  | a :: b :: rest => nameLT a.data b.data && sortedByName (b :: rest)

/-- The path is rooted after `filepath.Clean`. -/
def isRooted (p : String) : Bool := (Clean p).data.head? == some '/'

/-- The elements of a path after `filepath.Clean`: the names between its
separators; the cleaned empty path `.` has none. -/
def pathElements (p : String) : List (List Char) :=
  ((Clean p).data.splitOn '/').filter (fun e => e != [] && e != ['.'])

/-- The path `target` is `root` or lies under it: both are rooted or both
are not, the elements of `root` are the first elements of `target`, and the
elements of `target` after them name children (none of them is `..`). -/
def isUnder (root target : String) : Bool :=
  (isRooted root == isRooted target) &&
    (pathElements root).isPrefixOf (pathElements target) &&
    !((pathElements target).drop (pathElements root).length).contains ['.', '.']

/-- The `id` fields of the records of a response, in emission order. -/
def Response.ids (r : Response) : List Nat := r.records.map FileInfo.ID

/-- The record built from a successful stat of `filePath` at position `pos`. -/
def recordOf (U : CaseTables) (filePath : String) (pos : Nat) (s : SysStat) : FileInfo :=
  { ID := pos + 1
    FileName := basename filePath
    Size := s.size
    IsDir := s.isDir
    MimeType := if s.isDir then "directory" else mimeSwitch U (ToLower U (Ext filePath))
    CreatedAt := s.modTime
    UpdatedAt := s.modTime }

/-- The records emitted for the entries `files`, the first at position `n`. -/
def emittedFrom (U : CaseTables) (fs : FileSystem) (d : String) (n : Nat)
    (files : List String) : List FileInfo :=
  (files.enumFrom n).filterMap (fun p => entryRecord U fs d p.1 p.2)

/-- A name as `os.ReadDir` reports it for a directory entry: not empty,
without `/`, and neither `.` nor `..`. -/
def validName (name : String) : Prop :=
  name.data ≠ [] ∧ '/' ∉ name.data ∧ name.data ≠ ['.'] ∧ name.data ≠ ['.', '.']

instance (name : String) : Decidable (validName name) :=
  inferInstanceAs (Decidable (name.data ≠ [] ∧ '/' ∉ name.data ∧ name.data ≠ ['.'] ∧
    name.data ≠ ['.', '.']))

/-- Invariant of the output buffer of `Clean` on a rooted path: it keeps
its leading separator, and `..` stops after it. -/
def rootedInv (rooted : Bool) (out : List Char) (dd : Nat) : Prop :=
  rooted = true → out.head? = some '/' ∧ 1 ≤ dd

/-- A directory part of a cleaned path: empty, or ending in a separator. -/
def endsDir (X : List Char) : Prop := X = [] ∨ X.getLast? = some '/'

/-- The extension to MIME table of the specification, extensions without
their dot. -/
def specMimeTable : List (String × String) :=
  [("jpg", "image/jpeg"), ("jpeg", "image/jpeg"), ("png", "image/png"), ("gif", "image/gif"),
   ("mp4", "video/mp4"), ("mp3", "audio/mpeg"), ("txt", "text/plain"),
   ("pdf", "application/pdf"), ("zip", "application/zip"), ("tar", "application/x-tar"),
   ("html", "text/html"), ("htm", "text/html"), ("css", "text/css"),
   ("js", "application/javascript"), ("json", "application/json"), ("xml", "application/xml"),
   ("csv", "text/csv"), ("doc", "application/msword"), ("docx", "application/msword"),
   ("xls", "application/vnd.ms-excel"), ("xlsx", "application/vnd.ms-excel"),
   ("ppt", "application/vnd.ms-powerpoint"), ("pptx", "application/vnd.ms-powerpoint"),
   ("avi", "video/x-msvideo"), ("mov", "video/quicktime"), ("mkv", "video/x-matroska"),
   ("flv", "video/x-flv"), ("webm", "video/webm"), ("wav", "audio/wav"), ("ogg", "audio/ogg"),
   ("bmp", "image/bmp"), ("svg", "image/svg+xml"), ("ico", "image/x-icon"),
   ("exe", "application/x-msdownload"), ("dll", "application/x-msdownload"),
   ("sh", "application/x-sh")]

/-- The lowercased extension `ext` (with its dot) is in the table. -/
def inSpecTable (ext : String) : Bool := specMimeTable.any (fun p => ext == "." ++ p.1)

/-- The extension of a name in the words of the specification: the suffix
of the name from its final dot, empty when the name has no dot. -/
def suffixFromFinalDot : List Char → List Char
  | [] => []
  | c :: rest =>
    if '.' ∈ rest then suffixFromFinalDot rest
    else if c = '.' then c :: rest
    else []

/-- ASCII part of `unicode.ToLower`. -/
def asciiLower (r : Char) : Char :=
  if 'A' ≤ r ∧ r ≤ 'Z' then Char.ofNat (r.toNat + ('a'.toNat - 'A'.toNat)) else r

/-- ASCII part of `unicode.ToUpper`. -/
def asciiUpper (r : Char) : Char :=
  if 'a' ≤ r ∧ r ≤ 'z' then Char.ofNat (r.toNat - ('a'.toNat - 'A'.toNat)) else r

/-! ## Concrete file systems -/

/-- Case tables that leave every rune above `MaxASCII` as it is; for inputs
made of ASCII characters, on which no table is consulted. -/
def identityTables : CaseTables := ⟨id, id⟩

/-- The entry of `unicode.CaseRanges` for the Kelvin sign,
`{0x212A, 0x212A, d{0, -8383, 0}}`: its lower case is `k` (`0x212A - 8383 =
0x6B`), its upper case is itself.  No other rune above `MaxASCII` occurs in
the input this table is used on. -/
def kelvinTables : CaseTables :=
  { lower := fun r => if r = Char.ofNat 0x212A then 'k' else r
    upper := fun r => r }

/-- What the system reports for a regular file of 12 bytes. -/
def regularFile : SysStat := { size := 12, isDir := false, modTime := "2024-01-02T03:04:05Z" }

/-- What the system reports for an empty regular file. -/
def emptyFile : SysStat := { size := 0, isDir := false, modTime := "2024-01-02T03:04:05Z" }

/-- What the system reports for a directory. -/
def directory : SysStat := { size := 4096, isDir := true, modTime := "2024-01-02T03:04:05Z" }

/-- The entries of `/srv` in `fsDemo`, in enumeration order. -/
def demoFiles : List String :=
  ["README", "archive.unknownext", "gone.txt", "locked.bin", "report.PDF", "sub.d"]

/-- The entries of `/srv/pub` in `fsDemo`, in enumeration order. -/
def pubFiles : List String := ["img", "index.html"]

/-- A file system with a directory `/srv` of six entries, of which
`gone.txt` cannot be stat-ed, `locked.bin` cannot be opened and `README` is
empty, an empty directory `/srv/empty`, and a directory `/srv/pub` of two
entries; no other path exists, and the path `/srv/pub/index.html/x`, which
lies under a regular file, is reported as `ENOTDIR`. -/
def fsDemo : FileSystem where
  stat := fun p =>
    if p = "/srv" ∨ p = "/srv/empty" ∨ p = "/srv/sub.d" ∨ p = "/srv/pub" ∨ p = "/srv/pub/img" then
      .ok directory
    else if p = "/srv/report.PDF" ∨ p = "/srv/archive.unknownext" ∨
        p = "/srv/locked.bin" ∨ p = "/srv/pub/index.html" then .ok regularFile
    else if p = "/srv/README" then .ok emptyFile
    else if p = "/srv/pub/index.html/x" then .error .notDir
    else .error .notExist
  readDir := fun p =>
    if p = "/srv" then some demoFiles
    else if p = "/srv/empty" then some []
    else if p = "/srv/pub" then some pubFiles
    else none
  openFile := fun p => p != "/srv/locked.bin"
  read := fun p => if p = "/srv/README" then ⟨0, .EOF⟩ else ⟨12, .none⟩

/-- A file system whose directory `/srv` lists `gone.txt`, which cannot be
stat-ed, before the regular file `kept.txt`. -/
def fsGap : FileSystem where
  stat := fun p =>
    if p = "/srv" then .ok directory
    else if p = "/srv/kept.txt" then .ok regularFile
    else .error .notExist
  readDir := fun p => if p = "/srv" then some ["gone.txt", "kept.txt"] else none
  openFile := fun _ => true
  read := fun _ => ⟨12, .none⟩

/-- A file system whose directory `/srv` lists the regular file `kept.txt`
before `lost.txt`, which cannot be stat-ed. -/
def fsTail : FileSystem where
  stat := fun p =>
    if p = "/srv" then .ok directory
    else if p = "/srv/kept.txt" then .ok regularFile
    else .error .notExist
  readDir := fun p => if p = "/srv" then some ["kept.txt", "lost.txt"] else none
  openFile := fun _ => true
  read := fun _ => ⟨12, .none⟩

/-- A file system whose directory `/srv` holds one regular file,
`locked.txt`, that can be stat-ed but not opened. -/
def fsLocked : FileSystem where
  stat := fun p =>
    if p = "/srv" then .ok directory
    else if p = "/srv/locked.txt" then .ok regularFile
    else .error .notExist
  readDir := fun p => if p = "/srv" then some ["locked.txt"] else none
  openFile := fun _ => false
  read := fun _ => ⟨0, .other⟩

/-- The name `note.K`, its extension being a dot and the Kelvin sign
`U+212A`. -/
def kelvinName : String := ⟨['n', 'o', 't', 'e', '.', Char.ofNat 0x212A]⟩

/-- A file system whose directory `/srv` holds one regular file, named
`kelvinName`. -/
def fsKelvin : FileSystem where
  stat := fun p =>
    if p = "/srv" then .ok directory
    else if p = "/srv/" ++ kelvinName then .ok regularFile
    else .error .notExist
  readDir := fun p => if p = "/srv" then some [kelvinName] else none
  openFile := fun _ => true
  read := fun _ => ⟨12, .none⟩

/-- The record of the directory `sub.d` in the listing of `/srv` in `fsDemo`. -/
def subRecord : FileInfo :=
  { ID := 6, FileName := "sub.d", Size := 4096, IsDir := true, MimeType := "directory",
    CreatedAt := "2024-01-02T03:04:05Z", UpdatedAt := "2024-01-02T03:04:05Z" }

/-- The record of `report.PDF` in the listing of `/srv` in `fsDemo`. -/
def reportRecord : FileInfo :=
  { ID := 5, FileName := "report.PDF", Size := 12, IsDir := false,
    MimeType := "application/pdf",
    CreatedAt := "2024-01-02T03:04:05Z", UpdatedAt := "2024-01-02T03:04:05Z" }

/-- The record of `README` in the listing of `/srv` in `fsDemo`. -/
def readmeRecord : FileInfo :=
  { ID := 1, FileName := "README", Size := 0, IsDir := false, MimeType := "",
    CreatedAt := "2024-01-02T03:04:05Z", UpdatedAt := "2024-01-02T03:04:05Z" }

/-- The record of `archive.unknownext` in the listing of `/srv` in `fsDemo`. -/
def archiveRecord : FileInfo :=
  { ID := 2, FileName := "archive.unknownext", Size := 12, IsDir := false,
    MimeType := ".UNKNOWNEXT",
    CreatedAt := "2024-01-02T03:04:05Z", UpdatedAt := "2024-01-02T03:04:05Z" }

/-- A file system with the directories `/srv/files` and `/etc`, the latter
holding the regular file `passwd`. -/
def fsEscape : FileSystem where
  stat := fun p =>
    if p = "/srv/files" ∨ p = "/etc" then .ok directory
    else if p = "/etc/passwd" then .ok regularFile
    else .error .notExist
  readDir := fun p =>
    if p = "/srv/files" then some []
    else if p = "/etc" then some ["passwd"]
    else none
  openFile := fun _ => true
  read := fun _ => ⟨12, .none⟩

/-- Some `/`-separated segment of the query is `..`. -/
def hasDotDotSegment (q : String) : Bool := (q.data.splitOn '/').contains ['.', '.']

/-! ## Lemmas -/

theorem records_append (l : FileList) (x : FileInfo) :
    (l.append x).records = l.records ++ [x] := by
  cases l <;> rfl

theorem loopBody_id (U : CaseTables) (fs : FileSystem) (d : String) (st : LoopState)
    (file : String) : (loopBody U fs d st file).id = st.id + 1 := by
  simp only [loopBody]
  split
  · rfl
  · split_ifs <;> rfl

theorem loopBody_fileList (U : CaseTables) (fs : FileSystem) (d : String) (st : LoopState)
    (file : String) :
    (loopBody U fs d st file).fileList.records =
      st.fileList.records ++ (entryRecord U fs d st.id file).toList := by
  obtain ⟨fl, id, calls⟩ := st
  simp only [entryRecord, loopBody]
  split
  · simp [FileList.records]
  · split_ifs <;> cases fl <;> simp [FileList.append, FileList.records]

theorem loopBody_calls (U : CaseTables) (fs : FileSystem) (d : String) (st : LoopState)
    (file : String) : ∃ cs, (loopBody U fs d st file).calls = st.calls ++ cs := by
  simp only [loopBody]
  split
  · exact ⟨_, rfl⟩
  · split_ifs <;> exact ⟨_, rfl⟩

theorem foldl_records (U : CaseTables) (fs : FileSystem) (d : String) (files : List String) :
    ∀ st : LoopState,
      (files.foldl (loopBody U fs d) st).fileList.records =
        st.fileList.records ++
          (files.enumFrom st.id).filterMap (fun p => entryRecord U fs d p.1 p.2) := by
  induction files with
  | nil => intro st; simp
  | cons file rest ih =>
    intro st
    rw [List.foldl_cons, ih, loopBody_fileList, loopBody_id, List.enumFrom_cons,
      List.filterMap_cons]
    cases h : entryRecord U fs d st.id file <;> simp

theorem foldl_calls (U : CaseTables) (fs : FileSystem) (d : String) (files : List String) :
    ∀ st : LoopState, ∃ cs, (files.foldl (loopBody U fs d) st).calls = st.calls ++ cs := by
  induction files with
  | nil => intro st; exact ⟨[], by simp⟩
  | cons file rest ih =>
    intro st
    obtain ⟨cs, h⟩ := ih (loopBody U fs d st file)
    obtain ⟨cs0, h0⟩ := loopBody_calls U fs d st file
    exact ⟨cs0 ++ cs, by rw [List.foldl_cons, h, h0, List.append_assoc]⟩

theorem entryRecord_eq (U : CaseTables) (fs : FileSystem) (d : String) (pos : Nat)
    (file : String) :
    entryRecord U fs d pos file =
      match fs.stat (Join [d, file]) with
      | .error _ => none
      | .ok s =>
        if listable fs (Join [d, file]) then some (recordOf U (Join [d, file]) pos s) else none := by
  simp only [entryRecord, loopBody, osStat, listable, recordOf]
  cases hs : fs.stat (Join [d, file]) with
  | error e => simp [FileList.records]
  | ok s =>
    cases hd : s.isDir <;> cases ho : fs.openFile (Join [d, file]) <;>
      cases he : (fs.read (Join [d, file])).err <;>
      simp [FileList.records, FileList.append, hd, ho, he, Nat.eq_zero_or_pos, Nat.pos_iff_ne_zero, em']

theorem entryRecord_isSome (U : CaseTables) (fs : FileSystem) (d : String) (pos : Nat)
    (file : String) :
    (entryRecord U fs d pos file).isSome = listable fs (Join [d, file]) := by
  rw [entryRecord_eq]
  cases hs : fs.stat (Join [d, file]) with
  | error e => simp [listable, hs]
  | ok s => cases hl : listable fs (Join [d, file]) <;> simp

theorem entryRecord_some (U : CaseTables) (fs : FileSystem) (d : String) (pos : Nat)
    (file : String) (r : FileInfo) (h : entryRecord U fs d pos file = some r) :
    ∃ s, fs.stat (Join [d, file]) = .ok s ∧ listable fs (Join [d, file]) = true ∧
      r = recordOf U (Join [d, file]) pos s := by
  rw [entryRecord_eq] at h
  cases hs : fs.stat (Join [d, file]) with
  | error e => simp [hs] at h
  | ok s =>
    simp only [hs] at h
    split_ifs at h with hl
    exact ⟨s, rfl, hl, (Option.some.inj h).symm⟩

theorem records_encoded (fl : FileList) : (Response.encoded (jsonEncode fl)).records = fl.records := by
  cases fl <;> rfl

theorem filesHandler_listing (U : CaseTables) (fs : FileSystem) (root q : String)
    (files : List String) (hstat : fs.stat (targetDir root q) ≠ .error .notExist)
    (hread : fs.readDir (targetDir root q) = some files) :
    (filesHandler U fs root q).1 =
      .encoded (jsonEncode (files.foldl (loopBody U fs (targetDir root q))
        { fileList := none, id := 0, calls := [.stat (targetDir root q), .readDir (targetDir root q)] }).fileList) := by
  cases hs : fs.stat (targetDir root q) with
  | error e =>
    cases e with
    | notExist => exact absurd hs hstat
    | notDir => simp [filesHandler, hs, hread]
    | other => simp [filesHandler, hs, hread]
  | ok s => simp [filesHandler, hs, hread]

theorem filesHandler_records (U : CaseTables) (fs : FileSystem) (root q : String)
    (files : List String) (hstat : fs.stat (targetDir root q) ≠ .error .notExist)
    (hread : fs.readDir (targetDir root q) = some files) :
    (filesHandler U fs root q).1.records = emittedFrom U fs (targetDir root q) 0 files := by
  rw [filesHandler_listing U fs root q files hstat hread, records_encoded, foldl_records]
  simp [FileList.records, emittedFrom]

theorem filesHandler_records_cases (U : CaseTables) (fs : FileSystem) (root q : String) :
    (filesHandler U fs root q).1.records = [] ∨
      ∃ files, fs.stat (targetDir root q) ≠ .error .notExist ∧
        fs.readDir (targetDir root q) = some files ∧
        (filesHandler U fs root q).1.records = emittedFrom U fs (targetDir root q) 0 files := by
  by_cases hstat : fs.stat (targetDir root q) = .error .notExist
  · left; simp [filesHandler, hstat, Response.records]
  · cases hread : fs.readDir (targetDir root q) with
    | none =>
      left
      cases hs : fs.stat (targetDir root q) with
      | error e => cases e <;> simp [filesHandler, hs, hread, Response.records]
      | ok s => simp [filesHandler, hs, hread, Response.records]
    | some files => exact Or.inr ⟨files, hstat, rfl, filesHandler_records U fs root q files hstat hread⟩

theorem emittedFrom_nil (U : CaseTables) (fs : FileSystem) (d : String) (n : Nat) :
    emittedFrom U fs d n [] = [] := rfl

theorem emittedFrom_cons (U : CaseTables) (fs : FileSystem) (d : String) (n : Nat)
    (file : String) (rest : List String) :
    emittedFrom U fs d n (file :: rest) =
      (entryRecord U fs d n file).toList ++ emittedFrom U fs d (n + 1) rest := by
  simp only [emittedFrom, List.enumFrom_cons, List.filterMap_cons]
  cases entryRecord U fs d n file <;> simp

theorem emittedFrom_cons_listable (U : CaseTables) (fs : FileSystem) (d : String) (n : Nat)
    (file : String) (rest : List String) (h : listable fs (Join [d, file]) = true) :
    ∃ r, r.ID = n + 1 ∧ entryRecord U fs d n file = some r ∧
      emittedFrom U fs d n (file :: rest) = r :: emittedFrom U fs d (n + 1) rest := by
  have hs := entryRecord_isSome U fs d n file
  rw [h] at hs
  obtain ⟨r, hr⟩ := Option.isSome_iff_exists.mp hs
  obtain ⟨s, -, -, hrec⟩ := entryRecord_some U fs d n file r hr
  exact ⟨r, by rw [hrec]; rfl, hr, by rw [emittedFrom_cons, hr]; rfl⟩

theorem emittedFrom_cons_skipped (U : CaseTables) (fs : FileSystem) (d : String) (n : Nat)
    (file : String) (rest : List String) (h : listable fs (Join [d, file]) = false) :
    emittedFrom U fs d n (file :: rest) = emittedFrom U fs d (n + 1) rest := by
  have hs := entryRecord_isSome U fs d n file
  rw [h] at hs
  have hn : entryRecord U fs d n file = none := by
    cases he : entryRecord U fs d n file with
    | none => rfl
    | some r => simp [he] at hs
  rw [emittedFrom_cons, hn]
  rfl

theorem emittedFrom_length (U : CaseTables) (fs : FileSystem) (d : String)
    (files : List String) : ∀ n,
    (emittedFrom U fs d n files).length = files.countP (fun f => listable fs (Join [d, f])) := by
  induction files with
  | nil => intro n; rfl
  | cons file rest ih =>
    intro n
    cases h : listable fs (Join [d, file]) with
    | true =>
      obtain ⟨r, -, -, hr⟩ := emittedFrom_cons_listable U fs d n file rest h
      rw [hr, List.length_cons, ih, List.countP_cons_of_pos _ _ (by simpa using h)]
    | false =>
      rw [emittedFrom_cons_skipped U fs d n file rest h, ih,
        List.countP_cons_of_neg _ _ (by simp [h])]

theorem emittedFrom_id_bounds (U : CaseTables) (fs : FileSystem) (d : String)
    (files : List String) : ∀ n, ∀ r ∈ emittedFrom U fs d n files,
    n + 1 ≤ r.ID ∧ r.ID ≤ n + files.length := by
  induction files with
  | nil => intro n r hr; simp [emittedFrom_nil] at hr
  | cons file rest ih =>
    intro n r hr
    cases h : listable fs (Join [d, file]) with
    | true =>
      obtain ⟨r0, hid, -, hr0⟩ := emittedFrom_cons_listable U fs d n file rest h
      rw [hr0, List.mem_cons] at hr
      rcases hr with rfl | hr
      · simp [hid]
      · have := ih (n + 1) r hr
        simp only [List.length_cons]; omega
    | false =>
      rw [emittedFrom_cons_skipped U fs d n file rest h] at hr
      have := ih (n + 1) r hr
      simp only [List.length_cons]; omega

theorem emittedFrom_ids_sorted (U : CaseTables) (fs : FileSystem) (d : String)
    (files : List String) : ∀ n,
    ((emittedFrom U fs d n files).map FileInfo.ID).Pairwise (· < ·) := by
  induction files with
  | nil => intro n; simp [emittedFrom_nil]
  | cons file rest ih =>
    intro n
    cases h : listable fs (Join [d, file]) with
    | true =>
      obtain ⟨r0, hid, -, hr0⟩ := emittedFrom_cons_listable U fs d n file rest h
      rw [hr0, List.map_cons, List.pairwise_cons]
      refine ⟨?_, ih (n + 1)⟩
      intro i hi
      obtain ⟨r, hr, rfl⟩ := List.mem_map.mp hi
      have := emittedFrom_id_bounds U fs d rest (n + 1) r hr
      omega
    | false =>
      rw [emittedFrom_cons_skipped U fs d n file rest h]
      exact ih (n + 1)

theorem emittedFrom_ids_all (U : CaseTables) (fs : FileSystem) (d : String)
    (files : List String) : ∀ n, (∀ f ∈ files, listable fs (Join [d, f]) = true) →
    (emittedFrom U fs d n files).map FileInfo.ID = List.range' (n + 1) files.length := by
  induction files with
  | nil => intro n _; rfl
  | cons file rest ih =>
    intro n hall
    obtain ⟨r0, hid, -, hr0⟩ :=
      emittedFrom_cons_listable U fs d n file rest (hall file (List.mem_cons_self _ _))
    rw [hr0, List.map_cons, hid, ih (n + 1) (fun f hf => hall f (List.mem_cons_of_mem _ hf)),
      List.length_cons, List.range'_succ]

theorem emittedFrom_eq_nil_iff (U : CaseTables) (fs : FileSystem) (d : String)
    (files : List String) (n : Nat) :
    emittedFrom U fs d n files = [] ↔ ∀ f ∈ files, listable fs (Join [d, f]) = false := by
  rw [← List.length_eq_zero, emittedFrom_length, List.countP_eq_zero]
  simp

theorem emittedFrom_ids_range_iff (U : CaseTables) (fs : FileSystem) (d : String)
    (files : List String) : ∀ n,
    ((emittedFrom U fs d n files).map FileInfo.ID =
        List.range' (n + 1) (emittedFrom U fs d n files).length ↔
      ∀ g ∈ files.dropWhile (fun f => listable fs (Join [d, f])),
        listable fs (Join [d, g]) = false) := by
  induction files with
  | nil => intro n; simp [emittedFrom_nil]
  | cons file rest ih =>
    intro n
    cases h : listable fs (Join [d, file]) with
    | true =>
      obtain ⟨r0, hid, -, hr0⟩ := emittedFrom_cons_listable U fs d n file rest h
      rw [hr0, List.map_cons, hid, List.length_cons, List.range'_succ,
        List.dropWhile_cons_of_pos (by simpa using h)]
      rw [← ih (n + 1)]
      simp
    | false =>
      rw [emittedFrom_cons_skipped U fs d n file rest h,
        List.dropWhile_cons_of_neg (by simp [h])]
      constructor
      · intro heq
        have hnil : emittedFrom U fs d (n + 1) rest = [] := by
          cases hl : emittedFrom U fs d (n + 1) rest with
          | nil => rfl
          | cons r rs =>
            rw [hl] at heq
            simp only [List.map_cons, List.length_cons, List.range'_succ, List.cons.injEq] at heq
            have hb := emittedFrom_id_bounds U fs d rest (n + 1) r (by rw [hl]; exact List.mem_cons_self _ _)
            omega
        intro g hg
        rcases List.mem_cons.mp hg with rfl | hg
        · exact h
        · exact (emittedFrom_eq_nil_iff U fs d rest (n + 1)).mp hnil g hg
      · intro hall
        have hnil : emittedFrom U fs d (n + 1) rest = [] :=
          (emittedFrom_eq_nil_iff U fs d rest (n + 1)).mpr
            (fun g hg => hall g (List.mem_cons_of_mem _ hg))
        rw [hnil]; rfl

theorem emittedFrom_position (U : CaseTables) (fs : FileSystem) (d : String)
    (files : List String) (r : FileInfo) (hr : r ∈ emittedFrom U fs d 0 files) :
    1 ≤ r.ID ∧ ∃ file, files[r.ID - 1]? = some file ∧
      entryRecord U fs d (r.ID - 1) file = some r := by
  obtain ⟨⟨i, file⟩, hmem, hrec⟩ := List.mem_filterMap.mp hr
  have hget : files[i]? = some file := List.mk_mem_enum_iff_getElem?.mp hmem
  obtain ⟨s, -, -, hrs⟩ := entryRecord_some U fs d i file r hrec
  have hid : r.ID = i + 1 := by rw [hrs]; rfl
  refine ⟨by omega, file, ?_, ?_⟩
  · rw [hid]; simpa using hget
  · rw [hid]; simpa using hrec

theorem isPathSeparator_iff (c : Char) : isPathSeparator c = true ↔ c = '/' := by
  simp [isPathSeparator]

theorem takeWhile_noSep (nm : List Char) (h : '/' ∉ nm) :
    nm.takeWhile (fun b => !isPathSeparator b) = nm := by
  rw [List.takeWhile_eq_self_iff]
  intro c hc
  have : c ≠ '/' := fun e => h (e ▸ hc)
  simpa [isPathSeparator] using this

theorem dropWhile_noSep (nm : List Char) (h : '/' ∉ nm) :
    nm.dropWhile (fun b => !isPathSeparator b) = [] := by
  rw [List.dropWhile_eq_nil_iff]
  intro c hc
  have : c ≠ '/' := fun e => h (e ▸ hc)
  simpa [isPathSeparator] using this

theorem cleanLoop_nil (rooted : Bool) (fuel : Nat) (out : List Char) (dd : Nat) :
    cleanLoop rooted fuel [] out dd = out := by
  cases fuel <;> rfl

/-- The last iteration: a valid name is copied as one element. -/
theorem cleanLoop_name (rooted : Bool) (fuel : Nat) (nm out : List Char) (dd : Nat)
    (hne : nm ≠ []) (hsep : '/' ∉ nm) (hdot : nm ≠ ['.']) (hdd : nm ≠ ['.', '.'])
    (hfuel : 1 ≤ fuel) :
    cleanLoop rooted fuel nm out dd =
      (if (rooted && out.length != 1) || (!rooted && out.length != 0) then out ++ ['/']
        else out) ++ nm := by
  obtain ⟨f, rfl⟩ : ∃ f, fuel = f + 1 := ⟨fuel - 1, by omega⟩
  cases nm with
  | nil => exact absurd rfl hne
  | cons c rest =>
    have hc : c ≠ '/' := fun e => hsep (e ▸ List.mem_cons_self _ _)
    have hrest : '/' ∉ rest := fun h => hsep (List.mem_cons_of_mem _ h)
    have h1 : ¬ (c = '.' ∧ (rest = [] ∨ isPathSeparator (rest.headD '/') = true)) := by
      rintro ⟨rfl, h | h⟩
      · exact hdot (by rw [h])
      · cases rest with
        | nil => exact hdot rfl
        | cons b bs =>
          simp only [List.headD_cons, isPathSeparator_iff] at h
          exact hrest (h ▸ List.mem_cons_self _ _)
    have h2 : ¬ (c = '.' ∧ rest.head? = some '.' ∧
        (rest.tail = [] ∨ isPathSeparator (rest.tail.headD '/') = true)) := by
      rintro ⟨rfl, hh, h⟩
      cases rest with
      | nil => simp at hh
      | cons b bs =>
        simp only [List.head?_cons, Option.some.injEq] at hh
        subst hh
        simp only [List.tail_cons] at h
        rcases h with h | h
        · exact hdd (by rw [h])
        · cases bs with
          | nil => exact hdd rfl
          | cons a as =>
            simp only [List.headD_cons, isPathSeparator_iff] at h
            exact hrest (List.mem_cons_of_mem _ (h ▸ List.mem_cons_self _ _))
    have h0 : ¬ isPathSeparator c = true := by simpa [isPathSeparator_iff] using hc
    rw [cleanLoop]
    simp only [h0, h1, h2, if_false, Bool.false_eq_true]
    rw [takeWhile_noSep _ hsep, dropWhile_noSep _ hsep, cleanLoop_nil]

theorem le_backtrack (buf : List Char) (dd : Nat) : ∀ w, dd ≤ w → dd ≤ backtrack buf dd w := by
  intro w
  induction w with
  | zero => intro h; simpa [backtrack] using h
  | succ w ih =>
    intro h
    rw [backtrack]
    split_ifs with hc
    · simp only [Bool.and_eq_true, decide_eq_true_eq] at hc
      exact ih (by omega)
    · exact h

theorem head?_take_pos (l : List Char) (m : Nat) (h : 1 ≤ m) : (l.take m).head? = l.head? := by
  cases l with
  | nil => simp
  | cons a t =>
    obtain ⟨m', rfl⟩ : ∃ m', m = m' + 1 := ⟨m - 1, by omega⟩
    simp

theorem head?_append_some (l t : List Char) (c : Char) (h : l.head? = some c) :
    (l ++ t).head? = some c := by
  cases l with
  | nil => simp at h
  | cons a s => simpa using h

theorem dropWhile_append_sep (p nm : List Char) :
    (p ++ '/' :: nm).dropWhile (fun b => !isPathSeparator b) =
      p.dropWhile (fun b => !isPathSeparator b) ++ '/' :: nm := by
  induction p with
  | nil => simp [isPathSeparator]
  | cons c p ih =>
    by_cases hc : isPathSeparator c = true
    · simp [List.dropWhile_cons, hc]
    · simp only [List.cons_append, List.dropWhile_cons, hc, Bool.not_false, if_true]
      simpa using ih

/-- The loop of `Clean` reads whole elements: started before a separator
that precedes `nm`, it comes to read `nm` from its first byte. -/
theorem cleanLoop_run (rooted : Bool) (nm : List Char) (k : Nat) :
    ∀ (fuel : Nat) (p out : List Char) (dd : Nat), p.length + 1 + k ≤ fuel →
      rootedInv rooted out dd →
      ∃ fuel2 out2 dd2, k ≤ fuel2 ∧ rootedInv rooted out2 dd2 ∧
        cleanLoop rooted fuel (p ++ '/' :: nm) out dd = cleanLoop rooted fuel2 nm out2 dd2 := by
  intro fuel
  induction fuel with
  | zero => intro p out dd h; omega
  | succ f ih =>
    intro p out dd hf hinv
    cases p with
    | nil =>
      refine ⟨f, out, dd, by simp only [List.length_nil] at hf; omega, hinv, ?_⟩
      rw [List.nil_append, cleanLoop]
      simp [isPathSeparator]
    | cons c p1 =>
      simp only [List.length_cons] at hf
      rw [List.cons_append, cleanLoop]
      simp only
      by_cases h0 : isPathSeparator c = true
      · rw [if_pos h0]
        exact ih p1 out dd (by omega) hinv
      rw [if_neg h0]
      by_cases h1 : c = '.' ∧ (p1 ++ '/' :: nm = [] ∨
          isPathSeparator ((p1 ++ '/' :: nm).headD '/') = true)
      · rw [if_pos h1]
        exact ih p1 out dd (by omega) hinv
      rw [if_neg h1]
      by_cases h2 : c = '.' ∧ (p1 ++ '/' :: nm).head? = some '.' ∧
          ((p1 ++ '/' :: nm).tail = [] ∨
            isPathSeparator ((p1 ++ '/' :: nm).tail.headD '/') = true)
      · rw [if_pos h2]
        cases p1 with
        | nil => exact absurd h2.2.1 (by simp)
        | cons b p2 =>
          simp only [List.cons_append, List.tail_cons, List.length_cons] at hf ⊢
          by_cases h3 : out.length > dd
          · rw [if_pos h3]
            refine ih p2 _ dd (by omega) ?_
            intro hr
            obtain ⟨hh, hd⟩ := hinv hr
            refine ⟨?_, hd⟩
            rw [head?_take_pos _ _ (le_trans hd (le_backtrack out dd _ (by omega)))]
            exact hh
          rw [if_neg h3]
          by_cases h4 : (!rooted) = true
          · rw [if_pos h4]
            refine ih p2 _ _ (by omega) ?_
            intro hr
            simp [hr] at h4
          · rw [if_neg h4]
            exact ih p2 out dd (by omega) hinv
      rw [if_neg h2]
      have hdw : (c :: (p1 ++ '/' :: nm)).dropWhile (fun b => !isPathSeparator b) =
          p1.dropWhile (fun b => !isPathSeparator b) ++ '/' :: nm := by
        rw [List.dropWhile_cons]
        simp only [h0, Bool.not_false, if_true]
        exact dropWhile_append_sep p1 nm
      rw [hdw]
      have hlen : (p1.dropWhile (fun b => !isPathSeparator b)).length ≤ p1.length :=
        (List.dropWhile_sublist _).length_le
      refine ih _ _ dd (by omega) ?_
      intro hr
      obtain ⟨hh, hd⟩ := hinv hr
      refine ⟨?_, hd⟩
      apply head?_append_some
      split_ifs
      · exact head?_append_some _ _ _ hh
      · exact hh

theorem endsDir_out (rooted : Bool) (out : List Char) (dd : Nat)
    (hinv : rootedInv rooted out dd) :
    endsDir (if (rooted && out.length != 1) || (!rooted && out.length != 0) then out ++ ['/']
      else out) := by
  split_ifs with h
  · right; simp
  · cases rooted with
    | true =>
      obtain ⟨hh, -⟩ := hinv rfl
      cases out with
      | nil => simp at hh
      | cons a t =>
        cases t with
        | nil => right; simpa using hh
        | cons b t => simp at h
    | false =>
      left
      cases out with
      | nil => rfl
      | cons a t => simp at h

theorem cleanLoop_to_name (rooted : Bool) (nm : List Char)
    (hne : nm ≠ []) (hsep : '/' ∉ nm) (hdot : nm ≠ ['.']) (hdd : nm ≠ ['.', '.'])
    (fuel : Nat) (p out : List Char) (dd : Nat) (hf : p.length + 2 ≤ fuel)
    (hinv : rootedInv rooted out dd) :
    ∃ X, endsDir X ∧ cleanLoop rooted fuel (p ++ '/' :: nm) out dd = X ++ nm := by
  obtain ⟨fuel2, out2, dd2, hk, hinv2, heq⟩ :=
    cleanLoop_run rooted nm 1 fuel p out dd (by omega) hinv
  rw [heq, cleanLoop_name rooted fuel2 nm out2 dd2 hne hsep hdot hdd hk]
  exact ⟨_, endsDir_out rooted out2 dd2 hinv2, rfl⟩

theorem cleanChars_dir_name (p nm : List Char)
    (hne : nm ≠ []) (hsep : '/' ∉ nm) (hdot : nm ≠ ['.']) (hdd : nm ≠ ['.', '.']) :
    ∃ X, endsDir X ∧ cleanChars (p ++ '/' :: nm) = X ++ nm := by
  have hlen : 1 ≤ nm.length := by
    cases nm with
    | nil => exact absurd rfl hne
    | cons a t => simp
  have key : ∃ X, endsDir X ∧
      (if isPathSeparator ((p ++ '/' :: nm).headD '.') = true then
        cleanLoop (isPathSeparator ((p ++ '/' :: nm).headD '.')) (p ++ '/' :: nm).length
          ((p ++ '/' :: nm).drop 1) ['/'] 1
      else cleanLoop (isPathSeparator ((p ++ '/' :: nm).headD '.')) (p ++ '/' :: nm).length
          (p ++ '/' :: nm) [] 0) = X ++ nm := by
    cases p with
    | nil =>
      simp only [List.nil_append, List.headD_cons, List.drop_succ_cons, List.drop_zero,
        List.length_cons]
      rw [if_pos (by simp [isPathSeparator]),
        cleanLoop_name _ _ nm _ _ hne hsep hdot hdd (by omega)]
      exact ⟨_, endsDir_out (isPathSeparator '/') ['/'] 1 (fun _ => ⟨rfl, le_refl 1⟩), rfl⟩
    | cons c p1 =>
      simp only [List.cons_append, List.headD_cons, List.drop_succ_cons, List.drop_zero,
        List.length_cons, List.length_append]
      split_ifs with hc
      · exact cleanLoop_to_name _ nm hne hsep hdot hdd _ p1 _ 1 (by omega)
          (fun _ => ⟨rfl, le_refl 1⟩)
      · have := cleanLoop_to_name (isPathSeparator c) nm hne hsep hdot hdd
          (p1.length + (nm.length + 1) + 1) (c :: p1) [] 0 (by simp only [List.length_cons]; omega)
          (fun hr => absurd hr hc)
        simpa using this
  obtain ⟨X, hX, hk⟩ := key
  refine ⟨X, hX, ?_⟩
  unfold cleanChars
  rw [if_neg (by simp)]
  simp only
  rw [hk, if_neg]
  cases nm with
  | nil => exact absurd rfl hne
  | cons a t => simp

theorem cleanChars_name (nm : List Char)
    (hne : nm ≠ []) (hsep : '/' ∉ nm) (hdot : nm ≠ ['.']) (hdd : nm ≠ ['.', '.']) :
    cleanChars nm = nm := by
  unfold cleanChars
  rw [if_neg hne]
  cases nm with
  | nil => exact absurd rfl hne
  | cons a t =>
    have ha : ¬ isPathSeparator a = true := by
      rw [isPathSeparator_iff]
      exact fun e => hsep (e ▸ List.mem_cons_self _ _)
    simp only [List.headD_cons]
    rw [if_neg ha, cleanLoop_name _ _ (a :: t) [] 0 hne hsep hdot hdd (by simp)]
    simp [ha]

/-- The path of an entry: the cleaned directory, then the name of the entry
as its last element. -/
theorem Join_name (d name : String) (h : validName name) :
    ∃ X, endsDir X ∧ (Join [d, name]).data = X ++ name.data := by
  obtain ⟨hne, hsep, hdot, hdd⟩ := h
  have hname : (name == "") = false := by
    rw [beq_eq_false_iff_ne]
    intro e
    exact hne (by rw [e])
  by_cases hd : d = ""
  · subst hd
    refine ⟨[], Or.inl rfl, ?_⟩
    have : Join ["", name] = Clean (stringsJoin [name] "/") := by
      simp [Join, List.dropWhile, hname]
    rw [this]
    have hj : (stringsJoin [name] "/").data = name.data := by
      simp [stringsJoin, List.intercalate, List.intersperse]
    simp only [Clean, hj]
    exact cleanChars_name name.data hne hsep hdot hdd
  · have hd2 : (d == "") = false := by rw [beq_eq_false_iff_ne]; exact hd
    have : Join [d, name] = Clean (stringsJoin [d, name] "/") := by
      simp [Join, List.dropWhile, hd2]
    rw [this]
    have hj : (stringsJoin [d, name] "/").data = d.data ++ '/' :: name.data := by
      simp [stringsJoin, List.intercalate, List.intersperse]
    simp only [Clean, hj]
    exact cleanChars_dir_name d.data name.data hne hsep hdot hdd

theorem getD_append_add (X nm : List Char) (k : Nat) (c : Char) :
    (X ++ nm).getD (X.length + k) c = nm.getD k c := by
  simp [List.getD_eq_getElem?_getD, List.getElem?_append_right]

theorem getD_ne_sep (nm : List Char) (hsep : '/' ∉ nm) (k : Nat) (hk : k < nm.length) (c : Char) :
    nm.getD k c ≠ '/' := by
  rw [List.getD_eq_getElem?_getD, List.getElem?_eq_getElem hk]
  intro e
  simp only [Option.getD_some] at e
  exact hsep (e ▸ List.getElem_mem hk)

theorem endsDir_cases (X : List Char) (h : endsDir X) : X = [] ∨ ∃ Y, X = Y ++ ['/'] := by
  rcases h with h | h
  · exact Or.inl h
  · right
    rcases List.eq_nil_or_concat X with hX | ⟨Y, c, hX⟩
    · rw [hX] at h; simp at h
    · rw [hX] at h
      simp [Option.or] at h
      exact ⟨Y, by rw [hX, h]; simp⟩

theorem getD_dir_end (Y nm : List Char) (c : Char) :
    (Y ++ ['/'] ++ nm).getD Y.length c = '/' := by
  have := getD_append_add Y ('/' :: nm) 0 c
  simpa using this

theorem extLoop_append (X nm : List Char) (hX : endsDir X) (hsep : '/' ∉ nm) :
    ∀ k, k ≤ nm.length → extLoop (X ++ nm) (X.length + k) = extLoop nm k := by
  intro k
  induction k with
  | zero =>
    intro _
    rcases endsDir_cases X hX with rfl | ⟨Y, rfl⟩
    · rfl
    · simp only [List.length_append, List.length_singleton, Nat.add_zero]
      have : extLoop (Y ++ ['/'] ++ nm) (Y.length + 1) = [] := by
        rw [extLoop, getD_dir_end]
        simp [isPathSeparator]
      rw [this]
      rfl
  | succ k ih =>
    intro hk
    have hne := getD_ne_sep nm hsep k (by omega) '/'
    rw [← Nat.add_assoc, extLoop, extLoop, getD_append_add, ih (by omega)]
    have hdrop : (X ++ nm).drop (X.length + k) = nm.drop k := by
      rw [List.drop_append]
    rw [hdrop]

theorem Ext_Join (d name : String) (h : validName name) :
    Ext (Join [d, name]) = Ext name := by
  obtain ⟨X, hX, hj⟩ := Join_name d name h
  unfold Ext
  rw [hj, List.length_append, extLoop_append X name.data hX h.2.1 _ (le_refl _)]

theorem dropDirectory_append (X nm : List Char) (hX : endsDir X) (hsep : '/' ∉ nm) :
    ∀ k, k ≤ nm.length → dropDirectory (X ++ nm) (X.length + k) = nm := by
  intro k
  induction k with
  | zero =>
    intro _
    rcases endsDir_cases X hX with rfl | ⟨Y, rfl⟩
    · rfl
    · simp only [List.length_append, List.length_singleton, Nat.add_zero]
      rw [dropDirectory, getD_dir_end, if_pos rfl]
      simp
  | succ k ih =>
    intro hk
    have hne := getD_ne_sep nm hsep k (by omega) '.'
    rw [← Nat.add_assoc, dropDirectory, getD_append_add, if_neg hne, ih (by omega)]

theorem trimSlashes_noSep (path : List Char) (i : Nat) (h : path.getD i '.' ≠ '/') :
    trimSlashes path i = (path, i) := by
  cases i with
  | zero => rfl
  | succ i => rw [trimSlashes, if_neg h]

theorem basename_Join (d name : String) (h : validName name) :
    basename (Join [d, name]) = name := by
  obtain ⟨X, hX, hj⟩ := Join_name d name h
  obtain ⟨hne, hsep, -, -⟩ := h
  have hlen : 1 ≤ name.data.length := by
    cases hn : name.data with
    | nil => exact absurd hn hne
    | cons a t => simp
  unfold basename
  rw [hj, if_neg (by simp [hne])]
  have hidx : (X ++ name.data).length - 1 = X.length + (name.data.length - 1) := by
    rw [List.length_append]; omega
  have hlast : (X ++ name.data).getD ((X ++ name.data).length - 1) '.' ≠ '/' := by
    rw [hidx, getD_append_add]
    exact getD_ne_sep _ hsep _ (by omega) _
  simp only [trimSlashes_noSep _ _ hlast]
  rw [hidx, dropDirectory_append X name.data hX hsep _ (by omega)]

theorem mimeSwitch_table (U : CaseTables) :
    ∀ p ∈ specMimeTable, mimeSwitch U ("." ++ p.1) = p.2 := by
  intro p hp
  simp only [specMimeTable, List.mem_cons, List.mem_singleton, List.not_mem_nil, or_false] at hp
  rcases hp with h | h | h | h | h | h | h | h | h | h | h | h | h | h | h | h | h | h | h | h |
    h | h | h | h | h | h | h | h | h | h | h | h | h | h | h | h <;> (subst h; rfl)

theorem mimeSwitch_default (U : CaseTables) (ext : String)
    (h : inSpecTable ext = false) : mimeSwitch U ext = ToUpper U ext := by
  unfold mimeSwitch
  split <;> first
    | rfl
    | (exfalso; revert h; decide)

theorem inSpecTable_false_iff (ext : String) :
    inSpecTable ext = false ↔ ∀ p ∈ specMimeTable, ext ≠ "." ++ p.1 := by
  simp [inSpecTable, List.any_eq_false]

theorem suffixFromFinalDot_split (P S : List Char) (hS : '.' ∉ S) :
    suffixFromFinalDot (P ++ '.' :: S) = '.' :: S := by
  induction P with
  | nil => simp [suffixFromFinalDot, hS]
  | cons c P ih =>
    rw [List.cons_append, suffixFromFinalDot, if_pos (by simp), ih]

theorem suffixFromFinalDot_noDot (nm : List Char) (h : '.' ∉ nm) :
    suffixFromFinalDot nm = [] := by
  induction nm with
  | nil => rfl
  | cons c rest ih =>
    have hc : c ≠ '.' := fun e => h (e ▸ List.mem_cons_self _ _)
    have hr : '.' ∉ rest := fun hm => h (List.mem_cons_of_mem _ hm)
    rw [suffixFromFinalDot, if_neg hr, if_neg hc]

theorem extLoop_noDot (nm : List Char) (hsep : '/' ∉ nm) (hdot : '.' ∉ nm) :
    ∀ k, k ≤ nm.length → extLoop nm k = [] := by
  intro k
  induction k with
  | zero => intro _; rfl
  | succ k ih =>
    intro hk
    have h1 : nm.getD k '/' ≠ '/' := getD_ne_sep nm hsep k (by omega) '/'
    have h2 : nm.getD k '/' ≠ '.' := by
      rw [List.getD_eq_getElem?_getD, List.getElem?_eq_getElem (by omega)]
      intro e
      simp only [Option.getD_some] at e
      exact hdot (e ▸ List.getElem_mem _)
    rw [extLoop, if_neg (by simpa [isPathSeparator] using h1), if_neg h2, ih (by omega)]

theorem extLoop_split (P S : List Char) (hsep : '/' ∉ S) (hdot : '.' ∉ S) :
    ∀ k, k ≤ S.length → extLoop (P ++ '.' :: S) (P.length + 1 + k) = '.' :: S := by
  intro k
  induction k with
  | zero =>
    intro _
    have hg : (P ++ '.' :: S).getD P.length '/' = '.' := by
      have := getD_append_add P ('.' :: S) 0 '/'
      simpa using this
    rw [Nat.add_zero, extLoop, hg, if_neg (by decide), if_pos rfl]
    simp
  | succ k ih =>
    intro hk
    have hg : (P ++ '.' :: S).getD (P.length + 1 + k) '/' = S.getD k '/' := by
      have := getD_append_add (P ++ ['.']) S k '/'
      simpa using this
    have h1 : S.getD k '/' ≠ '/' := getD_ne_sep S hsep k (by omega) '/'
    have h2 : S.getD k '/' ≠ '.' := by
      rw [List.getD_eq_getElem?_getD, List.getElem?_eq_getElem (by omega)]
      intro e
      simp only [Option.getD_some] at e
      exact hdot (e ▸ List.getElem_mem _)
    rw [← Nat.add_assoc, extLoop, hg, if_neg (by simpa [isPathSeparator] using h1), if_neg h2,
      ih (by omega)]

theorem exists_final_dot (nm : List Char) (h : '.' ∈ nm) :
    ∃ P S, nm = P ++ '.' :: S ∧ '.' ∉ S := by
  have hr : '.' ∈ nm.reverse := List.mem_reverse.mpr h
  obtain ⟨A, B, hAB, hA⟩ := List.eq_append_cons_of_mem hr
  refine ⟨B.reverse, A.reverse, ?_, by simpa using hA⟩
  have := congrArg List.reverse hAB
  simpa using this

/-- On a name without separator, `filepath.Ext` is the suffix from the
final dot. -/
theorem Ext_eq_suffixFromFinalDot (name : String) (hsep : '/' ∉ name.data) :
    (Ext name).data = suffixFromFinalDot name.data := by
  unfold Ext
  by_cases hdot : '.' ∈ name.data
  · obtain ⟨P, S, hPS, hS⟩ := exists_final_dot name.data hdot
    have hsepS : '/' ∉ S := fun hm => hsep (by rw [hPS]; simp [hm])
    rw [hPS, suffixFromFinalDot_split P S hS]
    have := extLoop_split P S hsepS hS S.length (le_refl _)
    simpa [Nat.add_assoc, Nat.add_comm 1] using this
  · rw [suffixFromFinalDot_noDot _ hdot]
    exact extLoop_noDot _ hsep hdot _ (le_refl _)

theorem ascii_upper_lower_fin :
    ∀ n : Fin 128, (asciiLower (Char.ofNat n)).toNat ≤ MaxASCII ∧
      asciiUpper (asciiLower (Char.ofNat n)) = asciiUpper (Char.ofNat n) := by
  decide

theorem unicode_upper_lower_ascii (U : CaseTables) (r : Char) (h : r.toNat ≤ MaxASCII) :
    unicodeToUpper U (unicodeToLower U r) = unicodeToUpper U r := by
  have hr : Char.ofNat r.toNat = r := Char.ofNat_toNat _
  have hlt : r.toNat < 128 := by simp only [MaxASCII] at h; omega
  obtain ⟨h1, h2⟩ := ascii_upper_lower_fin ⟨r.toNat, hlt⟩
  simp only [hr] at h1 h2
  have hl : unicodeToLower U r = asciiLower r := by simp [unicodeToLower, asciiLower, h]
  rw [hl]
  simp only [unicodeToUpper, h1, h, if_true]
  exact h2

theorem ToUpper_ToLower_ascii (U : CaseTables) (s : String)
    (h : ∀ c ∈ s.data, c.toNat ≤ MaxASCII) : ToUpper U (ToLower U s) = ToUpper U s := by
  simp only [ToUpper, ToLower, List.map_map]
  congr 1
  apply List.map_congr_left
  intro c hc
  exact unicode_upper_lower_ascii U c (h c hc)

/-- The fuel of `cleanLoop` is enough: with at least as many iterations as
unread bytes the result does not depend on the fuel. -/
theorem cleanLoop_fuel (rooted : Bool) :
    ∀ (f1 f2 : Nat) (path out : List Char) (dd : Nat), path.length ≤ f1 → path.length ≤ f2 →
      cleanLoop rooted f1 path out dd = cleanLoop rooted f2 path out dd := by
  intro f1
  induction f1 with
  | zero =>
    intro f2 path out dd h1 _
    obtain rfl : path = [] := List.length_eq_zero.mp (Nat.le_zero.mp h1)
    rw [cleanLoop_nil, cleanLoop_nil]
  | succ f1 ih =>
    intro f2 path out dd h1 h2
    cases f2 with
    | zero =>
      obtain rfl : path = [] := List.length_eq_zero.mp (Nat.le_zero.mp h2)
      rw [cleanLoop_nil, cleanLoop_nil]
    | succ f2 =>
      cases path with
      | nil => rfl
      | cons c rest =>
        simp only [List.length_cons] at h1 h2
        have ht : rest.tail.length ≤ rest.length := by simp
        have hd : ¬ isPathSeparator c = true →
            ((c :: rest).dropWhile (fun b => !isPathSeparator b)).length ≤ rest.length := by
          intro hc
          rw [List.dropWhile_cons]
          simp only [hc, Bool.not_false, if_true]
          exact (List.dropWhile_sublist _).length_le
        rw [cleanLoop, cleanLoop]
        simp only
        split_ifs with a1 a2 a3 a4 a5
        all_goals first
          | exact ih f2 _ _ _ (by omega) (by omega)
          | exact ih f2 _ _ _ (le_trans (hd a1) (by omega)) (le_trans (hd a1) (by omega))

theorem filesHandler_missing (U : CaseTables) (fs : FileSystem) (rootDir dirQuery : String)
    (hmissing : fs.stat (targetDir rootDir dirQuery) = .error .notExist) :
    filesHandler U fs rootDir dirQuery =
      (.httpError "\x7b\"error\": \"Directory not found\"\x7d" StatusNotFound,
        [.stat (targetDir rootDir dirQuery)]) := by
  simp only [filesHandler, hmissing]

theorem Ext_eq_mk_suffix (name : String) (hsep : '/' ∉ name.data) :
    Ext name = ⟨suffixFromFinalDot name.data⟩ := by
  have h := Ext_eq_suffixFromFinalDot name hsep
  cases hE : Ext name with
  | mk l =>
    rw [hE] at h
    simp only at h
    rw [h]

/-- An emitted record carries the name of its entry, and its MIME type is
`directory` for a directory and the result of the switch on the lowercased
extension of the name otherwise. -/
theorem record_of_listing (U : CaseTables) (fs : FileSystem) (rootDir dirQuery : String)
    (files : List String) (hread : fs.readDir (targetDir rootDir dirQuery) = some files)
    (hvalid : ∀ f ∈ files, validName f)
    (r : FileInfo) (hr : r ∈ (filesHandler U fs rootDir dirQuery).1.records) :
    r.FileName ∈ files ∧
      r.MimeType = if r.IsDir then "directory"
        else mimeSwitch U (ToLower U ⟨suffixFromFinalDot r.FileName.data⟩) := by
  rcases filesHandler_records_cases U fs rootDir dirQuery with h | ⟨files2, -, hread2, h⟩
  · rw [h] at hr; cases hr
  · rw [hread] at hread2
    obtain rfl : files = files2 := Option.some.inj hread2
    rw [h] at hr
    obtain ⟨⟨pos, file⟩, hmem, hrec⟩ := List.mem_filterMap.mp hr
    have hfile : file ∈ files := List.snd_mem_of_mem_enumFrom hmem
    have hv := hvalid file hfile
    obtain ⟨s, -, -, rfl⟩ := entryRecord_some U fs _ pos file r hrec
    simp only [recordOf]
    rw [basename_Join _ file hv, Ext_Join _ file hv, Ext_eq_mk_suffix file hv.2.1]
    exact ⟨hfile, rfl⟩

/-- The concrete directories list their entries in the order of
`os.ReadDir`. -/
theorem fixtures_sortedByName :
    sortedByName demoFiles = true ∧ sortedByName pubFiles = true ∧
      sortedByName ["gone.txt", "kept.txt"] = true ∧
      sortedByName ["kept.txt", "lost.txt"] = true ∧ sortedByName ["locked.txt"] = true := by
  decide

/-- The relation `isUnder` on some pairs of paths. -/
theorem isUnder_examples :
    isUnder "/srv/files" "/srv/files" = true ∧ isUnder "/srv/files" "/srv/files/a/b" = true ∧
      isUnder "/srv/" "/srv/pub" = true ∧ isUnder "/" "/etc" = true ∧
      isUnder "." "pub" = true ∧ isUnder ".." "../pub" = true ∧
      isUnder "/srv/files" "/srv/filesystem" = false ∧ isUnder "/srv/files" "/srv" = false ∧
      isUnder "/srv/files" "/etc" = false ∧ isUnder "." "../pub" = false ∧
      isUnder "srv" "/srv/pub" = false ∧ isUnder ".." "../../pub" = false := by
  decide

/-! ## The ids of a listing -/

/-- C1, as stated, fails: in `fsGap` the first entry of `/srv` is skipped and
the one emitted record has id 2, so the ids are not 1, ..., N. -/
theorem ids_gap_counterexample :
    fsGap.readDir (targetDir "/srv" "") = some ["gone.txt", "kept.txt"] ∧
      sortedByName ["gone.txt", "kept.txt"] = true ∧
      (filesHandler identityTables fsGap "/srv" "").1.ids = [2] ∧
      (filesHandler identityTables fsGap "/srv" "").1.records.length = 1 ∧
      (filesHandler identityTables fsGap "/srv" "").1.ids ≠
        List.range' 1 (filesHandler identityTables fsGap "/srv" "").1.records.length := by
  decide

/-- C1 (amended): in every listing the ids of the emitted records, in
emission order, are pairwise distinct and at least 1, and when every entry of
the directory is emitted they are exactly 1, 2, ..., N, with N the number of
emitted records. -/
theorem ids_distinct_and_contiguous_without_skips (U : CaseTables) (fs : FileSystem)
    (rootDir dirQuery : String) (files : List String)
    (hstat : fs.stat (targetDir rootDir dirQuery) ≠ .error .notExist)
    (hread : fs.readDir (targetDir rootDir dirQuery) = some files) :
    (filesHandler U fs rootDir dirQuery).1.ids.Nodup ∧
      (∀ i ∈ (filesHandler U fs rootDir dirQuery).1.ids, 1 ≤ i) ∧
      ((∀ f ∈ files, listable fs (Join [targetDir rootDir dirQuery, f]) = true) →
        (filesHandler U fs rootDir dirQuery).1.ids =
          List.range' 1 (filesHandler U fs rootDir dirQuery).1.records.length) := by
  have hrec := filesHandler_records U fs rootDir dirQuery files hstat hread
  simp only [Response.ids, hrec]
  refine ⟨?_, ?_, ?_⟩
  · exact (emittedFrom_ids_sorted U fs _ files 0).imp (fun h => Nat.ne_of_lt h)
  · intro i hi
    obtain ⟨r, hr, rfl⟩ := List.mem_map.mp hi
    exact (emittedFrom_id_bounds U fs _ files 0 r hr).1
  · intro hall
    have hids := emittedFrom_ids_all U fs _ files 0 hall
    have hlen := congrArg List.length hids
    simp only [List.length_map, List.length_range'] at hlen
    rw [hids, hlen]

/-- The theorem of C1 at the listing of `/srv/pub` in `fsDemo`, where both
entries are emitted: the ids are 1, 2. -/
theorem ids_distinct_and_contiguous_without_skips_witness :
    (fsDemo.stat (targetDir "/srv" "pub") ≠ .error .notExist ∧
      fsDemo.readDir (targetDir "/srv" "pub") = some pubFiles ∧
      ∀ f ∈ pubFiles, listable fsDemo (Join [targetDir "/srv" "pub", f]) = true) ∧
    (filesHandler identityTables fsDemo "/srv" "pub").1.records.length = 2 ∧
    (filesHandler identityTables fsDemo "/srv" "pub").1.ids =
      List.range' 1 (filesHandler identityTables fsDemo "/srv" "pub").1.records.length :=
  ⟨by decide, by decide,
    (ids_distinct_and_contiguous_without_skips identityTables fsDemo "/srv" "pub" pubFiles
      (by decide) (by decide)).2.2 (by decide)⟩

/-- C2, as stated, fails: in `fsLocked` the one entry of `/srv` can be
stat-ed, yet no record is emitted for it, because it cannot be opened. -/
theorem count_stat_counterexample :
    fsLocked.stat (targetDir "/srv" "") = .ok directory ∧
      fsLocked.readDir (targetDir "/srv" "") = some ["locked.txt"] ∧
      (["locked.txt"].countP (fun f => statSucceeds fsLocked (Join [targetDir "/srv" "", f]))) = 1 ∧
      (filesHandler identityTables fsLocked "/srv" "").1.records.length = 0 := by
  decide

/-- C2 (amended): for every existing, enumerable target directory, the number
of records emitted equals the number of directory entries for which stat
succeeds and which, unless they are directories, can be opened and read (an
`io.EOF` from the read is no failure); this number is at most the number of
entries for which stat succeeds, which is at most the number of entries. -/
theorem record_count (U : CaseTables) (fs : FileSystem)
    (rootDir dirQuery : String) (files : List String)
    (hstat : fs.stat (targetDir rootDir dirQuery) ≠ .error .notExist)
    (hread : fs.readDir (targetDir rootDir dirQuery) = some files) :
    (filesHandler U fs rootDir dirQuery).1.records.length =
        files.countP (fun f => listable fs (Join [targetDir rootDir dirQuery, f])) ∧
      (filesHandler U fs rootDir dirQuery).1.records.length ≤
        files.countP (fun f => statSucceeds fs (Join [targetDir rootDir dirQuery, f])) ∧
      files.countP (fun f => statSucceeds fs (Join [targetDir rootDir dirQuery, f])) ≤
        files.length := by
  rw [filesHandler_records U fs rootDir dirQuery files hstat hread, emittedFrom_length]
  refine ⟨rfl, ?_, List.countP_le_length _⟩
  apply List.countP_mono_left
  intro f _ hf
  simp only [listable, statSucceeds] at hf ⊢
  cases hs : fs.stat (Join [targetDir rootDir dirQuery, f]) with
  | error e => simp [hs] at hf
  | ok s => rfl

/-- The theorem of C2 at the listing of `/srv` in `fsDemo`: six entries,
five of them stat-able, four records. -/
theorem record_count_witness :
    (fsDemo.stat (targetDir "/srv" "") ≠ .error .notExist ∧
      fsDemo.readDir (targetDir "/srv" "") = some demoFiles) ∧
    (filesHandler identityTables fsDemo "/srv" "").1.records.length = 4 ∧
      demoFiles.countP (fun f => statSucceeds fsDemo (Join [targetDir "/srv" "", f])) = 5 ∧
      demoFiles.countP (fun f => listable fsDemo (Join [targetDir "/srv" "", f])) = 4 ∧
      (filesHandler identityTables fsDemo "/srv" "").1.records.length =
        demoFiles.countP (fun f => listable fsDemo (Join [targetDir "/srv" "", f])) :=
  ⟨by decide, by decide, by decide, by decide,
    (record_count identityTables fsDemo "/srv" "" demoFiles (by decide) (by decide)).1⟩

/-- C10, as stated, fails in its last part: in `fsTail` the entries of `/srv`
are enumerated in the order of `os.ReadDir`, the second is skipped, and the
ids are nevertheless 1, ..., N (here N = 1). -/
theorem ids_contiguous_with_skip_counterexample :
    fsTail.readDir (targetDir "/srv" "") = some ["kept.txt", "lost.txt"] ∧
      sortedByName ["kept.txt", "lost.txt"] = true ∧
      listable fsTail (Join [targetDir "/srv" "", "lost.txt"]) = false ∧
      entryRecord identityTables fsTail (targetDir "/srv" "") 1 "lost.txt" = none ∧
      (filesHandler identityTables fsTail "/srv" "").1.ids = [1] ∧
      (filesHandler identityTables fsTail "/srv" "").1.ids =
        List.range' 1 (filesHandler identityTables fsTail "/srv" "").1.records.length := by
  decide

/-- C10 (amended): in every listing the emitted records are, in enumeration
order, the records of the entries that are not skipped, and the id of each is
the 1-based position of its entry in the enumeration, skipped entries counted;
so the ids are strictly increasing and each lies between 1 and the number of
directory entries.  The ids are 1, ..., N exactly when no entry is emitted
after a skipped one. -/
theorem ids_are_enumeration_positions (U : CaseTables) (fs : FileSystem)
    (rootDir dirQuery : String) (files : List String)
    (hstat : fs.stat (targetDir rootDir dirQuery) ≠ .error .notExist)
    (hread : fs.readDir (targetDir rootDir dirQuery) = some files) :
    (filesHandler U fs rootDir dirQuery).1.records =
        files.enum.filterMap
          (fun p => entryRecord U fs (targetDir rootDir dirQuery) p.1 p.2) ∧
      (∀ pos file, (entryRecord U fs (targetDir rootDir dirQuery) pos file).isSome =
        listable fs (Join [targetDir rootDir dirQuery, file])) ∧
      (∀ r ∈ (filesHandler U fs rootDir dirQuery).1.records,
        1 ≤ r.ID ∧ r.ID ≤ files.length ∧
          ∃ file, files[r.ID - 1]? = some file ∧
            entryRecord U fs (targetDir rootDir dirQuery) (r.ID - 1) file = some r) ∧
      (filesHandler U fs rootDir dirQuery).1.ids.Pairwise (· < ·) ∧
      ((filesHandler U fs rootDir dirQuery).1.ids =
          List.range' 1 (filesHandler U fs rootDir dirQuery).1.records.length ↔
        ∀ g ∈ files.dropWhile (fun f => listable fs (Join [targetDir rootDir dirQuery, f])),
          listable fs (Join [targetDir rootDir dirQuery, g]) = false) := by
  have hrec := filesHandler_records U fs rootDir dirQuery files hstat hread
  simp only [Response.ids, hrec]
  refine ⟨rfl, fun pos file => entryRecord_isSome U fs _ pos file, ?_,
    emittedFrom_ids_sorted U fs _ files 0, ?_⟩
  · intro r hr
    have hb := emittedFrom_id_bounds U fs _ files 0 r hr
    obtain ⟨h1, hpos⟩ := emittedFrom_position U fs _ files r hr
    exact ⟨h1, by omega, hpos⟩
  · simpa using emittedFrom_ids_range_iff U fs (targetDir rootDir dirQuery) files 0

/-- The theorem of C10 at the listing of `/srv` in `fsDemo`: the ids are the
positions 1, 2, 5, 6 of the emitted entries among the six. -/
theorem ids_are_enumeration_positions_witness :
    (fsDemo.stat (targetDir "/srv" "") ≠ .error .notExist ∧
      fsDemo.readDir (targetDir "/srv" "") = some demoFiles) ∧
    (filesHandler identityTables fsDemo "/srv" "").1.ids = [1, 2, 5, 6] ∧
    (filesHandler identityTables fsDemo "/srv" "").1.ids.Pairwise (· < ·) :=
  ⟨by decide, by decide,
    (ids_are_enumeration_positions identityTables fsDemo "/srv" "" demoFiles
      (by decide) (by decide)).2.2.2.1⟩

/-! ## Missing and empty directories -/

/-- When the stat of the target reports `ENOENT`, the handler answers with status 404 and the body
`{"error": "Directory not found"}`; its only file-system call is that stat,
so the directory is not enumerated, and the response is no encoded value and
lists no record. -/
theorem stat_not_exist_answers_404 (U : CaseTables) (fs : FileSystem)
    (rootDir dirQuery : String)
    (hmissing : fs.stat (targetDir rootDir dirQuery) = .error .notExist) :
    (filesHandler U fs rootDir dirQuery).1 =
        .httpError "\x7b\"error\": \"Directory not found\"\x7d" 404 ∧
      (filesHandler U fs rootDir dirQuery).1.status = 404 ∧
      (filesHandler U fs rootDir dirQuery).2 = [.stat (targetDir rootDir dirQuery)] ∧
      (∀ p, Call.readDir p ∉ (filesHandler U fs rootDir dirQuery).2) ∧
      (∀ body, (filesHandler U fs rootDir dirQuery).1 ≠ .encoded body) ∧
      (filesHandler U fs rootDir dirQuery).1.records = [] := by
  rw [filesHandler_missing U fs rootDir dirQuery hmissing]
  refine ⟨rfl, rfl, rfl, ?_, ?_, rfl⟩
  · intro p hp
    simp at hp
  · intro body hb
    cases hb

/-- C3 does not hold of the code: a target path that does not exist because a
component above its last element is not a directory makes the stat fail with
`ENOTDIR`, which `os.IsNotExist` does not recognise; the handler goes on to
enumerate the target and, the enumeration failing, answers with status 500 and
the body `{"error": "Error reading directory"}`, not with 404. -/
theorem missing_directory_under_file_answers_500 (U : CaseTables) (fs : FileSystem)
    (rootDir dirQuery : String)
    (hnotdir : fs.stat (targetDir rootDir dirQuery) = .error .notDir)
    (hread : fs.readDir (targetDir rootDir dirQuery) = none) :
    pathMissing fs (targetDir rootDir dirQuery) = true ∧
      (filesHandler U fs rootDir dirQuery).1 =
        .httpError "\x7b\"error\": \"Error reading directory\"\x7d" 500 ∧
      (filesHandler U fs rootDir dirQuery).1.status ≠ 404 ∧
      (filesHandler U fs rootDir dirQuery).1 ≠
        .httpError "\x7b\"error\": \"Directory not found\"\x7d" 404 ∧
      (filesHandler U fs rootDir dirQuery).2 =
        [.stat (targetDir rootDir dirQuery), .readDir (targetDir rootDir dirQuery)] := by
  have h : filesHandler U fs rootDir dirQuery =
      (.httpError "\x7b\"error\": \"Error reading directory\"\x7d" StatusInternalServerError,
        [.stat (targetDir rootDir dirQuery), .readDir (targetDir rootDir dirQuery)]) := by
    simp only [filesHandler, hnotdir, hread]
  rw [h]
  refine ⟨?_, rfl, ?_, ?_, rfl⟩
  · simp [pathMissing, hnotdir]
  · simp [Response.status, StatusInternalServerError]
  · simp [StatusInternalServerError]

/-- The theorem of C3 at the query `pub/index.html/x` in `fsDemo`, where
`/srv/pub/index.html` is a regular file: the target does not exist and the
answer is 500. -/
theorem missing_directory_under_file_answers_500_witness :
    (targetDir "/srv" "pub/index.html/x" = "/srv/pub/index.html/x" ∧
      fsDemo.stat "/srv/pub/index.html" = .ok regularFile ∧
      pathMissing fsDemo (targetDir "/srv" "pub/index.html/x") = true ∧
      fsDemo.stat (targetDir "/srv" "pub/index.html/x") = .error .notDir ∧
      fsDemo.readDir (targetDir "/srv" "pub/index.html/x") = none) ∧
    (filesHandler identityTables fsDemo "/srv" "pub/index.html/x").1 =
      .httpError "\x7b\"error\": \"Error reading directory\"\x7d" 500 :=
  ⟨by decide,
    (missing_directory_under_file_answers_500 identityTables fsDemo "/srv" "pub/index.html/x"
      (by decide) (by decide)).2.1⟩

/-- C4 does not hold of the code: for an existing, enumerable directory
without entries the handler answers with status 200, and the value it encodes
is the nil slice, JSON `null`, not the empty array `[]`. -/
theorem empty_directory_encodes_null (U : CaseTables) (fs : FileSystem)
    (rootDir dirQuery : String)
    (hstat : fs.stat (targetDir rootDir dirQuery) ≠ .error .notExist)
    (hread : fs.readDir (targetDir rootDir dirQuery) = some []) :
    (filesHandler U fs rootDir dirQuery).1 = .encoded .null ∧
      (filesHandler U fs rootDir dirQuery).1 ≠ .encoded (.array []) ∧
      (filesHandler U fs rootDir dirQuery).1.status = 200 := by
  have h := filesHandler_listing U fs rootDir dirQuery [] hstat hread
  simp only [List.foldl_nil, jsonEncode] at h
  rw [h]
  exact ⟨rfl, by decide, rfl⟩

/-- The theorem of C4 at the empty directory `/srv/empty` of `fsDemo`. -/
theorem empty_directory_encodes_null_witness :
    (fsDemo.stat (targetDir "/srv" "empty") ≠ .error .notExist ∧
      fsDemo.readDir (targetDir "/srv" "empty") = some []) ∧
    (filesHandler identityTables fsDemo "/srv" "empty").1 = .encoded .null :=
  ⟨by decide,
    (empty_directory_encodes_null identityTables fsDemo "/srv" "empty"
      (by decide) (by decide)).1⟩

/-! ## Directories among the entries -/

/-- C8: every emitted record whose `is_dir` is true has the MIME type
`directory`. -/
theorem directory_mime_type (U : CaseTables) (fs : FileSystem) (rootDir dirQuery : String)
    (r : FileInfo) (hr : r ∈ (filesHandler U fs rootDir dirQuery).1.records)
    (hdir : r.IsDir = true) : r.MimeType = "directory" := by
  rcases filesHandler_records_cases U fs rootDir dirQuery with h | ⟨files, -, -, h⟩
  · rw [h] at hr; cases hr
  · rw [h] at hr
    obtain ⟨⟨pos, file⟩, -, hrec⟩ := List.mem_filterMap.mp hr
    obtain ⟨s, -, -, rfl⟩ := entryRecord_some U fs _ pos file r hrec
    simp only [recordOf] at hdir ⊢
    rw [if_pos hdir]

/-- The theorem of C8 at the record of the directory `sub.d`, whose name has
an extension, in the listing of `/srv` in `fsDemo`. -/
theorem directory_mime_type_witness :
    (subRecord ∈ (filesHandler identityTables fsDemo "/srv" "").1.records ∧
      subRecord.IsDir = true) ∧ subRecord.MimeType = "directory" :=
  ⟨by decide,
    directory_mime_type identityTables fsDemo "/srv" "" subRecord (by decide) (by decide)⟩

/-! ## The target directory -/

/-- C9: the handler does not keep the target under the root.  For the root
`/srv/files` and the query `../../etc`, which is not empty and has `..`
segments, the target is `filepath.Join` of the two, `/etc`, which is neither
the root nor a path under it; for every file system the handler stats that
path first and, unless the stat reports `ENOENT`, enumerates it next; and in
`fsEscape` the response lists the entry `passwd` of `/etc`.  (With an empty
query the target is the root as given, and a trailing separator of the root
changes nothing.) -/
theorem target_escapes_root :
    ("../../etc" : String) ≠ "" ∧ hasDotDotSegment "../../etc" = true ∧
      targetDir "/srv/files" "../../etc" = Join ["/srv/files", "../../etc"] ∧
      targetDir "/srv/files" "../../etc" = "/etc" ∧
      isUnder "/srv/files" (targetDir "/srv/files" "../../etc") = false ∧
      targetDir "/srv/files/" "" = "/srv/files/" ∧
      isUnder "/srv/files/" (targetDir "/srv/files/" "") = true ∧
      isUnder "/srv/files/" (targetDir "/srv/files/" "../../etc") = false ∧
      (∀ (U : CaseTables) (fs : FileSystem),
        (filesHandler U fs "/srv/files" "../../etc").2.head? = some (.stat "/etc") ∧
          ((filesHandler U fs "/srv/files" "../../etc").2 = [.stat "/etc"] ∧
              fs.stat "/etc" = .error .notExist ∨
            (filesHandler U fs "/srv/files" "../../etc").2.take 2 =
              [.stat "/etc", .readDir "/etc"])) ∧
      (filesHandler identityTables fsEscape "/srv/files" "../../etc").2 =
        [.stat "/etc", .readDir "/etc", .stat "/etc/passwd", .openFile "/etc/passwd",
          .read "/etc/passwd"] ∧
      (filesHandler identityTables fsEscape "/srv/files" "../../etc").1.records.map
        FileInfo.FileName = ["passwd"] := by
  have ht : targetDir "/srv/files" "../../etc" = "/etc" := by decide
  refine ⟨by decide, by decide, by decide, by decide, by decide, by decide, by decide,
    by decide, ?_, by decide, by decide⟩
  intro U fs
  by_cases hstat : fs.stat "/etc" = .error .notExist
  · rw [filesHandler_missing U fs "/srv/files" "../../etc" (by rw [ht]; exact hstat), ht]
    exact ⟨rfl, Or.inl ⟨rfl, hstat⟩⟩
  · have key : ∃ cs, (filesHandler U fs "/srv/files" "../../etc").2 =
        [.stat "/etc", .readDir "/etc"] ++ cs := by
      cases hread : fs.readDir "/etc" with
      | none =>
        refine ⟨[], ?_⟩
        cases hs : fs.stat "/etc" with
        | error e =>
          cases e with
          | notExist => exact absurd hs hstat
          | notDir => simp [filesHandler, ht, hs, hread]
          | other => simp [filesHandler, ht, hs, hread]
        | ok s => simp [filesHandler, ht, hs, hread]
      | some files =>
        obtain ⟨cs, hcs⟩ := foldl_calls U fs "/etc" files
          { fileList := none, id := 0, calls := [.stat "/etc", .readDir "/etc"] }
        refine ⟨cs, ?_⟩
        cases hs : fs.stat "/etc" with
        | error e =>
          cases e with
          | notExist => exact absurd hs hstat
          | notDir => simpa [filesHandler, ht, hs, hread] using hcs
          | other => simpa [filesHandler, ht, hs, hread] using hcs
        | ok s => simpa [filesHandler, ht, hs, hread] using hcs
    obtain ⟨cs, hcs⟩ := key
    rw [hcs]
    exact ⟨rfl, Or.inr rfl⟩

/-! ## MIME types of regular files -/

/-- C5: for every emitted record of a regular file, if the extension of its
name (the suffix from the final dot), lowercased, is a dot followed by an
extension of the table of the specification, the MIME type of the record is
the value of the table for that extension. -/
theorem mime_type_of_table_extension (U : CaseTables) (fs : FileSystem)
    (rootDir dirQuery : String) (files : List String)
    (hread : fs.readDir (targetDir rootDir dirQuery) = some files)
    (hvalid : ∀ f ∈ files, validName f)
    (r : FileInfo) (hr : r ∈ (filesHandler U fs rootDir dirQuery).1.records)
    (hfile : r.IsDir = false) (ext mime : String) (htable : (ext, mime) ∈ specMimeTable)
    (hext : ToLower U ⟨suffixFromFinalDot r.FileName.data⟩ = "." ++ ext) :
    r.MimeType = mime := by
  obtain ⟨-, hm⟩ := record_of_listing U fs rootDir dirQuery files hread hvalid r hr
  rw [hm, hfile, hext]
  exact mimeSwitch_table U (ext, mime) htable

/-- The theorem of C5 at the record of `report.PDF` in the listing of `/srv`
in `fsDemo`: its MIME type is `application/pdf`. -/
theorem mime_type_of_table_extension_witness :
    (fsDemo.readDir (targetDir "/srv" "") = some demoFiles ∧
      (∀ f ∈ demoFiles, validName f) ∧
      reportRecord ∈ (filesHandler identityTables fsDemo "/srv" "").1.records ∧
      reportRecord.FileName = "report.PDF" ∧ reportRecord.IsDir = false ∧
      ("pdf", "application/pdf") ∈ specMimeTable ∧
      ToLower identityTables ⟨suffixFromFinalDot reportRecord.FileName.data⟩ = "." ++ "pdf") ∧
    reportRecord.MimeType = "application/pdf" :=
  ⟨by decide,
    mime_type_of_table_extension identityTables fsDemo "/srv" "" demoFiles (by decide)
      (by decide) reportRecord (by decide) (by decide) "pdf" "application/pdf" (by decide)
      (by decide)⟩

/-- C6, as stated, fails: for the regular file `kelvinName`, whose extension
is a dot and the Kelvin sign and is not in the table, the MIME type is `.K`
with the ASCII letter, while the uppercased extension keeps the Kelvin sign. -/
theorem mime_type_kelvin_counterexample :
    (filesHandler kelvinTables fsKelvin "/srv" "").1.records.map
        (fun r => (r.FileName, r.IsDir, r.MimeType)) = [(kelvinName, false, ".K")] ∧
      inSpecTable (ToLower kelvinTables ⟨suffixFromFinalDot kelvinName.data⟩) = false ∧
      ToUpper kelvinTables ⟨suffixFromFinalDot kelvinName.data⟩ =
        ⟨['.', Char.ofNat 0x212A]⟩ ∧
      ToUpper kelvinTables ⟨suffixFromFinalDot kelvinName.data⟩ ≠ ".K" := by
  decide

/-- C6 (amended): for every emitted record of a regular file whose lowercased
extension is not in the table, the MIME type is the uppercased form of the
lowercased extension of the name, leading dot included; it is the uppercased
extension itself whenever the extension is made of ASCII characters. -/
theorem mime_type_of_unmapped_extension (U : CaseTables) (fs : FileSystem)
    (rootDir dirQuery : String) (files : List String)
    (hread : fs.readDir (targetDir rootDir dirQuery) = some files)
    (hvalid : ∀ f ∈ files, validName f)
    (r : FileInfo) (hr : r ∈ (filesHandler U fs rootDir dirQuery).1.records)
    (hfile : r.IsDir = false)
    (hunmapped : ∀ p ∈ specMimeTable,
      ToLower U ⟨suffixFromFinalDot r.FileName.data⟩ ≠ "." ++ p.1) :
    r.MimeType = ToUpper U (ToLower U ⟨suffixFromFinalDot r.FileName.data⟩) ∧
      ((∀ c ∈ suffixFromFinalDot r.FileName.data, c.toNat ≤ MaxASCII) →
        r.MimeType = ToUpper U ⟨suffixFromFinalDot r.FileName.data⟩) := by
  obtain ⟨-, hm⟩ := record_of_listing U fs rootDir dirQuery files hread hvalid r hr
  rw [hfile] at hm
  have hsw := mimeSwitch_default U _ ((inSpecTable_false_iff _).mpr hunmapped)
  have h1 : r.MimeType = ToUpper U (ToLower U ⟨suffixFromFinalDot r.FileName.data⟩) := by
    rw [hm]; exact hsw
  refine ⟨h1, fun hascii => ?_⟩
  rw [h1]
  exact ToUpper_ToLower_ascii U _ hascii

/-- The theorem of C6 at the record of `archive.unknownext` in the listing of
`/srv` in `fsDemo`: its MIME type is `.UNKNOWNEXT`. -/
theorem mime_type_of_unmapped_extension_witness :
    (fsDemo.readDir (targetDir "/srv" "") = some demoFiles ∧
      (∀ f ∈ demoFiles, validName f) ∧
      archiveRecord ∈ (filesHandler identityTables fsDemo "/srv" "").1.records ∧
      archiveRecord.FileName = "archive.unknownext" ∧ archiveRecord.IsDir = false ∧
      (∀ p ∈ specMimeTable,
        ToLower identityTables ⟨suffixFromFinalDot archiveRecord.FileName.data⟩ ≠ "." ++ p.1) ∧
      (∀ c ∈ suffixFromFinalDot archiveRecord.FileName.data, c.toNat ≤ MaxASCII) ∧
      ToUpper identityTables ⟨suffixFromFinalDot archiveRecord.FileName.data⟩ =
        ".UNKNOWNEXT") ∧
    archiveRecord.MimeType = ToUpper identityTables
      ⟨suffixFromFinalDot archiveRecord.FileName.data⟩ :=
  ⟨by decide,
    (mime_type_of_unmapped_extension identityTables fsDemo "/srv" "" demoFiles (by decide)
      (by decide) archiveRecord (by decide) (by decide) (by decide)).2 (by decide)⟩

/-- C7: for every emitted record of a regular file whose name contains no
dot, the MIME type is the empty string. -/
theorem mime_type_without_extension (U : CaseTables) (fs : FileSystem)
    (rootDir dirQuery : String) (files : List String)
    (hread : fs.readDir (targetDir rootDir dirQuery) = some files)
    (hvalid : ∀ f ∈ files, validName f)
    (r : FileInfo) (hr : r ∈ (filesHandler U fs rootDir dirQuery).1.records)
    (hfile : r.IsDir = false) (hnodot : '.' ∉ r.FileName.data) :
    r.MimeType = "" := by
  obtain ⟨-, hm⟩ := record_of_listing U fs rootDir dirQuery files hread hvalid r hr
  rw [hm, hfile, suffixFromFinalDot_noDot _ hnodot]
  rfl

/-- The theorem of C7 at the record of `README` in the listing of `/srv` in
`fsDemo`. -/
theorem mime_type_without_extension_witness :
    (fsDemo.readDir (targetDir "/srv" "") = some demoFiles ∧
      (∀ f ∈ demoFiles, validName f) ∧
      readmeRecord ∈ (filesHandler identityTables fsDemo "/srv" "").1.records ∧
      readmeRecord.FileName = "README" ∧ readmeRecord.IsDir = false ∧
      '.' ∉ readmeRecord.FileName.data) ∧
    readmeRecord.MimeType = "" :=
  ⟨by decide,
    mime_type_without_extension identityTables fsDemo "/srv" "" demoFiles (by decide)
      (by decide) readmeRecord (by decide) (by decide) (by decide)⟩

end FileServer
